import Mathlib

/-!
# VPS-FastSearch: verified model of the core search/index/daemon logic

Shallow embedding of the VPS-FastSearch repository (`vps_fastsearch/core.py`,
`vps_fastsearch/daemon.py`) in Lean 4, with theorems settling the frozen claims
about the index store, the hybrid (RRF) search pipeline, the model manager and
the JSON-RPC dispatcher.

Modelling conventions:
* SQLite tables are modelled as Lean lists; the two SQL search queries
  (BM25 / vector k-NN) are abstracted by their result orderings, which the
  search functions receive as explicit list parameters.
* Python `float` scores and timestamps are modelled as `ℚ` (exact arithmetic);
  none of the settled claims depends on floating-point rounding.
* Python's stable `list.sort(key=..., reverse=True)` is modelled by
  `List.mergeSort` with the reversed comparison, which is stable.
* `apsw` connections autocommit each SQL statement (`core.py` opens no
  transaction), so every single `INSERT`/`DELETE` is its own commit; the
  embedding makes each statement a separate state update.
-/

namespace VPS

/-! ## Index store (`core.py`, class `SearchDB`)

The schema (`_init_schema`): a `docs` table with `INTEGER PRIMARY KEY id`,
`source`, `chunk_index`, `content`, `metadata`; an FTS5 table `docs_fts`
content-synced to `docs` by the `docs_ai`/`docs_ad`/`docs_au` triggers
(insert mirrors the new rowid, delete removes the old rowid); and a
`vec0` virtual table `docs_vec (id INTEGER PRIMARY KEY, embedding FLOAT[768])`.

We track for each table exactly what the consistency claims are about:
the full row for `docs`, the set of rowids for `docs_fts` and `docs_vec`
(their payloads are derived data).
-/

/-- The fixed embedding dimension of the `docs_vec` table (`FLOAT[768]`). -/
def DIM : Nat := 768

/-- One row of the `docs` table (timestamp and metadata omitted: no claim
mentions them). -/
structure Doc where
  id : Nat
  source : String
  chunkIndex : Nat
  content : String
  deriving DecidableEq, Repr

/-- The on-disk state of a `SearchDB`: the `docs` rows, the rowids present in
the FTS index, the ids present in the vector index, and the next rowid that
SQLite's `INTEGER PRIMARY KEY` auto-assignment will hand out
(`last_insert_rowid` returns the id just assigned). -/
structure DB where
  docs : List Doc
  fts : List Nat
  vec : List Nat
  nextId : Nat
  deriving DecidableEq, Repr

/-- A freshly created database (`_init_schema` on a new file): all tables
empty, first assigned rowid is 1. -/
def emptyDB : DB := ⟨[], [], [], 1⟩

/-- Errors surfaced by the storage layer. A `vec0` insert whose serialized
vector does not have exactly 768 floats raises (the spec's
`DimensionMismatch`); it is the one statement in the indexing paths that can
fail on well-typed input. -/
inductive DBError
  | dimensionMismatch
  deriving DecidableEq, Repr

/-- `SearchDB.index_document` (core.py:195-227).

Two autocommitted statements: the `docs` insert (whose `docs_ai` trigger
inserts the FTS row) always succeeds and commits; then the `docs_vec` insert
succeeds iff the embedding has exactly `DIM` entries.  On failure the
exception propagates *after* the docs+FTS rows are already committed, so the
returned state keeps them. -/
def indexDocument (db : DB) (source : String) (chunkIndex : Nat) (content : String)
    (embedding : List ℚ) : DB × Except DBError Nat :=
  let docId := db.nextId
  let db1 : DB :=
    { docs := db.docs ++ [⟨docId, source, chunkIndex, content⟩]
      fts := db.fts ++ [docId]
      vec := db.vec
      nextId := docId + 1 }
  if embedding.length = DIM then
    ({ db1 with vec := db1.vec ++ [docId] }, .ok docId)
  else
    (db1, .error .dimensionMismatch)

/-- One input item of `index_batch`: `(source, chunk_index, content, embedding,
metadata)`; metadata is dropped as in `Doc`. -/
structure Item where
  source : String
  chunkIndex : Nat
  content : String
  embedding : List ℚ
  deriving DecidableEq, Repr

/-- `SearchDB.index_batch` (core.py:229-260).

A plain Python `for` loop over the items, inserting each with the same two
autocommitted statements as `index_document`; there is no surrounding
transaction, so an exception aborts the loop leaving every earlier insert
committed. -/
def indexBatch (db : DB) (items : List Item) : DB × Except DBError (List Nat) :=
  match items with
  | [] => (db, .ok [])
  | it :: rest =>
    match indexDocument db it.source it.chunkIndex it.content it.embedding with
    | (db1, .ok i) =>
      match indexBatch db1 rest with
      | (db2, .ok ids) => (db2, .ok (i :: ids))
      | (db2, .error e) => (db2, .error e)
    | (db1, .error e) => (db1, .error e)

/-- `SearchDB.delete_source` (core.py:465-479).

Collects the ids of the source's rows, deletes each from `docs_vec`, then
deletes the `docs` rows (the `docs_ad` trigger removes the FTS rows).
Returns the number of collected ids. -/
def deleteSource (db : DB) (source : String) : DB × Nat :=
  let ids := (db.docs.filter (fun d => d.source == source)).map Doc.id
  if ids.isEmpty then (db, 0)
  else
    ({ docs := db.docs.filter (fun d => decide (d.source ≠ source))
       fts := db.fts.filter (fun i => decide (i ∉ ids))
       vec := db.vec.filter (fun i => decide (i ∉ ids))
       nextId := db.nextId }, ids.length)

/-- The chunk/lexical/vector consistency invariant of the claims: every id in
the `docs` table has exactly one FTS entry and exactly one vector entry, and
conversely every FTS/vector entry belongs to a (unique) `docs` row. -/
def Inv (db : DB) : Prop :=
  (db.docs.map Doc.id).Nodup ∧
  (∀ i ∈ db.docs.map Doc.id, db.fts.count i = 1 ∧ db.vec.count i = 1) ∧
  (∀ i ∈ db.fts, i ∈ db.docs.map Doc.id) ∧
  (∀ i ∈ db.vec, i ∈ db.docs.map Doc.id)

instance : DecidablePred Inv := fun db => by
  unfold Inv; infer_instance

/-- Auxiliary structural invariant: the FTS and vector id columns are exactly
the `docs` id column, ids are distinct and below the auto-increment counter.
This is what the successful write paths actually maintain, and it implies
`Inv`. -/
def Wf (db : DB) : Prop :=
  db.fts = db.docs.map Doc.id ∧
  db.vec = db.docs.map Doc.id ∧
  (db.docs.map Doc.id).Nodup ∧
  ∀ d ∈ db.docs, d.id < db.nextId

/-- The states reachable from a fresh database through the public mutations,
with every embedding of the required dimension `DIM` (the success
precondition of the `docs_vec` insert). -/
inductive Reachable : DB → Prop
  | empty : Reachable emptyDB
  | indexDoc (db : DB) (s : String) (ci : Nat) (c : String) (e : List ℚ)
      (hdb : Reachable db) (he : e.length = DIM) :
      Reachable (indexDocument db s ci c e).1
  | indexBatch (db : DB) (items : List Item)
      (hdb : Reachable db) (he : ∀ it ∈ items, it.embedding.length = DIM) :
      Reachable (indexBatch db items).1
  | deleteSrc (db : DB) (s : String) (hdb : Reachable db) :
      Reachable (deleteSource db s).1

/-- A concrete 768-dimensional embedding, for witnesses. -/
def emb768 : List ℚ := List.replicate DIM 0

/-! ## Search engine (`core.py`, `SearchDB.search_*`)

The two SQL queries are abstracted by their orderings: `search_bm25` receives
the list of matching rows in BM25-score-ascending order as produced by the
`ORDER BY score` query, `search_vector` the rows in distance-ascending order
as produced by the `vec0` k-NN query.  `LIMIT n` / `k = n` is `List.take n`,
and `enumerate(cursor, 1)` attaches the 1-based rank.  Everything from the
rank maps onward (`search_hybrid` lines 370-409) is modelled statement by
statement. -/

/-- A result row as selected by the search queries (score/distance and
metadata omitted: the hybrid pipeline reads only `id` and, for reranking,
`content`). -/
structure Row where
  id : Nat
  source : String
  chunkIndex : Nat
  content : String
  deriving DecidableEq, Repr

/-- `SearchDB.search_bm25` (core.py:262-303): the SQL ordering truncated by
`LIMIT`, with 1-based ranks from `enumerate(cursor, 1)`, as (rank, row)
pairs. -/
def searchBm25 (bm25Ordering : List Row) (limit : Nat) : List (Nat × Row) :=
  List.enumFrom 1 (bm25Ordering.take limit)

/-- `SearchDB.search_vector` (core.py:305-346): the k-NN ordering truncated to
`k = limit`, with 1-based ranks. -/
def searchVector (vecOrdering : List Row) (limit : Nat) : List (Nat × Row) :=
  List.enumFrom 1 (vecOrdering.take limit)

/-- The rank maps `bm25_ranks` / `vec_ranks` (core.py:371-372): dictionary
from id to that id's rank in a ranked result list.  The SQL results carry
distinct ids (`docs.id` is the primary key of the join), so first-match
lookup agrees with the Python dict comprehension. -/
def rankOf (ranked : List (Nat × Row)) (i : Nat) : Option Nat :=
  (ranked.find? (fun p => p.2.id == i)).map Prod.fst

/-- `all_ids = set(bm25_ranks) | set(vec_ranks)` (core.py:375) together with
the `for doc_id in all_ids` iteration (core.py:387).  CPython iterates a set
of ints in hash-table slot order — deterministic for a given set, but
following no simple rule (`list({3, 8})` is `[8, 3]` once an id reaches the
table size) — so the model takes the iteration order as an explicit
parameter `setOrder`, applied to the concatenated id columns; the theorems
constrain it only to enumerate each distinct id exactly once
(`IsSetIteration`), which is all Python's set guarantees. -/
def allIdsOf (setOrder : List Nat → List Nat)
    (bm25Results vecResults : List (Nat × Row)) : List Nat :=
  setOrder ((bm25Results.map (fun p => p.2.id)) ++ (vecResults.map (fun p => p.2.id)))

/-- What iterating a Python `set` built from the elements of a list
guarantees: each distinct element appears exactly once, in an unspecified
(implementation-defined, hash-slot) order. -/
def IsSetIteration (setOrder : List Nat → List Nat) : Prop :=
  ∀ l : List Nat, (setOrder l).Nodup ∧ ∀ i, i ∈ setOrder l ↔ i ∈ l

/-- `result_lookup` (core.py:378-381): the first occurrence of an id in
`bm25_results + vec_results`. -/
def lookupRow (bm25Results vecResults : List (Nat × Row)) (i : Nat) : Option Row :=
  ((bm25Results ++ vecResults).find? (fun p => p.2.id == i)).map Prod.snd

/-- The RRF score (core.py:391-394):
`bm25_weight * 1/(k + bm25_rank) + vec_weight * 1/(k + vec_rank)`, a missing
rank replaced by the sentinel `defaultRank = fetchLimit + 1` (core.py:385). -/
def rrfScoreOf (k fetchLimit : Nat) (wb wv : ℚ) (bm25Rank vecRank : Option Nat) : ℚ :=
  wb * (1 / ((k : ℚ) + (bm25Rank.getD (fetchLimit + 1) : Nat))) +
    wv * (1 / ((k : ℚ) + (vecRank.getD (fetchLimit + 1) : Nat)))

/-- One entry of `rrf_results` before the final sort (core.py:387-400): the
looked-up row, its `rrf_score`, and the `bm25_rank`/`vec_rank` fields, which
are `None` exactly when the id is missing from the corresponding list. -/
structure HybridCand where
  row : Row
  rrfScore : ℚ
  bm25Rank : Option Nat
  vecRank : Option Nat
  deriving DecidableEq, Repr

/-- `rrf_results` (core.py:384-400): one candidate per id of `all_ids`, in
iteration order.  (`result_lookup[doc_id]` always succeeds for these ids, so
the `filterMap` drops nothing.) -/
def rrfCandidates (setOrder : List Nat → List Nat)
    (bm25Results vecResults : List (Nat × Row)) (fetchLimit k : Nat)
    (wb wv : ℚ) : List HybridCand :=
  (allIdsOf setOrder bm25Results vecResults).filterMap fun i =>
    (lookupRow bm25Results vecResults i).map fun row =>
      { row := row
        rrfScore := rrfScoreOf k fetchLimit wb wv (rankOf bm25Results i) (rankOf vecResults i)
        bm25Rank := rankOf bm25Results i
        vecRank := rankOf vecResults i }

/-- One returned row of `search_hybrid`: a candidate plus the final 1-based
`rank` assigned after the sort (core.py:406-407). -/
structure HybridResult where
  row : Row
  rrfScore : ℚ
  bm25Rank : Option Nat
  vecRank : Option Nat
  rank : Nat
  deriving DecidableEq, Repr

/-- `SearchDB.search_hybrid` (core.py:348-409).

`fetch_limit = limit * 3`; the BM25 and vector paths are queried with that
limit; RRF scores are computed per candidate; then
`rrf_results.sort(key=lambda x: x["rrf_score"], reverse=True)` — Python's
stable sort on the score alone, modelled by the stable `List.mergeSort` with
the reversed comparison — and the first `limit` entries are returned with
`rank` renumbered from 1. -/
def searchHybrid (setOrder : List Nat → List Nat)
    (bm25Ordering vecOrdering : List Row) (limit k : Nat)
    (wb wv : ℚ) : List HybridResult :=
  let fetchLimit := limit * 3
  let bm25Results := searchBm25 bm25Ordering fetchLimit
  let vecResults := searchVector vecOrdering fetchLimit
  let sorted := (rrfCandidates setOrder bm25Results vecResults fetchLimit k wb wv).mergeSort
    (fun a b => decide (b.rrfScore ≤ a.rrfScore))
  (List.enumFrom 1 (sorted.take limit)).map fun p =>
    { row := p.2.row, rrfScore := p.2.rrfScore, bm25Rank := p.2.bm25Rank
      vecRank := p.2.vecRank, rank := p.1 }

/-- One returned row of `search_hybrid_reranked`.  The code mutates the
candidate dicts in place, overwriting `rank`; the model keeps the surviving
fields in `base` (whose `rank` is the candidate's original RRF rank, used
only to state the tie-break) plus the attached `rerank_score` and the final
renumbered `rank`. -/
structure RerankResult where
  base : HybridResult
  rerankScore : ℚ
  rank : Nat
  deriving DecidableEq, Repr

/-- `SearchDB.search_hybrid_reranked` (core.py:411-463).

Fetches `rerank_top_k` candidates from `search_hybrid` (with its default
`k = 60` and unit weights); if there are none, returns `[]` without touching
the reranker.  Otherwise scores each candidate's `content` against the query
with the cross-encoder (abstracted as the function `rerankScore`), stable-sorts
by that score descending, truncates to `limit` and renumbers `rank` from 1. -/
def searchHybridReranked (setOrder : List Nat → List Nat)
    (bm25Ordering vecOrdering : List Row)
    (rerankScore : String → String → ℚ) (query : String)
    (limit rerankTopK : Nat) : List RerankResult :=
  let candidates := searchHybrid setOrder bm25Ordering vecOrdering rerankTopK 60 1 1
  if candidates.isEmpty then []
  else
    let scored : List RerankResult :=
      candidates.map fun c => ⟨c, rerankScore query c.row.content, c.rank⟩
    let sorted := scored.mergeSort (fun a b => decide (b.rerankScore ≤ a.rerankScore))
    (List.enumFrom 1 (sorted.take limit)).map fun p => ⟨p.2.base, p.2.rerankScore, p.1⟩

/-! ## Model manager (`daemon.py`, class `ModelManager`)

Timestamps (`time.time()`) are explicit `ℚ` parameters (`now`); the measured
resident memory (`psutil` RSS, `get_memory_usage`) is an abstract function of
the set of loaded models, passed as the parameter `rss`; a slot's
configuration is looked up in an association list mirroring
`self.config.models`.  The ordered dict `self._models` is an association list
whose front is the least-recently-used end (`move_to_end` appends at the MRU
end).  `self._unload_tasks` is a list of pending delayed-unload tasks,
`(slot, fire time, captured timeout)`; a completed or cancelled task is
removed. -/

/-- `keep_loaded` values (`config.py`, `ModelConfig`). -/
inductive Keep
  | always
  | onDemand
  | never
  deriving DecidableEq, Repr

/-- Per-slot configuration (`config.py`, `ModelConfig`): model name,
`keep_loaded`, `idle_timeout_seconds` (an int; `ℚ` here so that it compares
directly with time differences). -/
structure SlotConfig where
  name : String
  keepLoaded : Keep
  idleTimeoutSeconds : ℚ
  deriving DecidableEq, Repr

/-- `self.config.models` as an association list. -/
def Config := List (String × SlotConfig)

/-- `self.config.models.get(slot)`. -/
def cfgFind (cfg : Config) (slot : String) : Option SlotConfig :=
  ((cfg : List (String × SlotConfig)).find? (fun p => p.1 == slot)).map Prod.snd

/-- A `LoadedModel` record (daemon.py:25-37); the live model handle itself is
opaque and omitted. -/
structure LoadedModel where
  slot : String
  loadedAt : ℚ
  lastUsed : ℚ
  memoryMb : ℚ
  deriving DecidableEq, Repr

/-- The mutable state of a `ModelManager`: the LRU-ordered slot map and the
pending delayed-unload tasks. -/
structure Manager where
  models : List (String × LoadedModel)
  pendingUnload : List (String × ℚ × ℚ)
  deriving DecidableEq, Repr

/-- A manager with nothing loaded (`ModelManager.__init__`). -/
def emptyManager : Manager := ⟨[], []⟩

/-- `self._models.get(slot)` / `slot in self._models`. -/
def findModel (models : List (String × LoadedModel)) (slot : String) : Option LoadedModel :=
  (models.find? (fun p => p.1 == slot)).map Prod.snd

/-- `ModelManager.estimate_model_memory` (daemon.py:60-67). -/
def estimateModelMemory (slot : String) : ℚ :=
  if slot = "embedder" then 450
  else if slot = "reranker" then 90
  else if slot = "summarizer" then 4000
  else 500

/-- The guard of `unload_model` (daemon.py:168-171): a slot is refused unload
iff its configuration exists and is `keep_loaded = "always"`. -/
def pinned (cfg : Config) (slot : String) : Bool :=
  match cfgFind cfg slot with
  | some sc => sc.keepLoaded == .always
  | none => false

/-- The eviction-candidate test of `_ensure_memory_budget` (daemon.py:147-151):
the slot's configuration exists and is not `keep_loaded = "always"`. -/
def evictable (cfg : Config) (slot : String) : Bool :=
  match cfgFind cfg slot with
  | some sc => ¬ sc.keepLoaded == .always
  | none => false

/-- `ModelManager.unload_model` (daemon.py:160-185): a no-op when the slot is
not loaded or is pinned (log and return), otherwise the slot is removed from
the registry. -/
def unloadModel (cfg : Config) (mgr : Manager) (slot : String) : Manager :=
  match findModel mgr.models slot with
  | none => mgr
  | some _ =>
    if pinned cfg slot then mgr
    else { mgr with models := mgr.models.filter (fun p => ¬ p.1 == slot) }

/-- The eviction victim of one `_ensure_memory_budget` round (daemon.py:144-151):
the first slot in LRU order whose configuration allows eviction. -/
def firstEvictable (cfg : Config) (models : List (String × LoadedModel)) : Option String :=
  (models.find? (fun p => evictable cfg p.1)).map Prod.fst

/-- The `while` loop of `_ensure_memory_budget` (daemon.py:143-158), with fuel
(each round unloads one loaded slot, so `models.length` rounds suffice):
while the measured usage plus the estimate of the incoming model exceeds
`max_ram_mb` and models remain loaded, unload the LRU evictable slot;
break — proceeding with the load — when no evictable slot remains. -/
def ensureBudgetLoop (cfg : Config) (rss : List (String × LoadedModel) → ℚ) (maxRam : ℚ)
    (needed : ℚ) : Nat → Manager → Manager
  | 0, mgr => mgr
  | fuel + 1, mgr =>
    if rss mgr.models + needed > maxRam ∧ mgr.models ≠ [] then
      match firstEvictable cfg mgr.models with
      | none => mgr
      | some s => ensureBudgetLoop cfg rss maxRam needed fuel (unloadModel cfg mgr s)
    else mgr

/-- `ModelManager._ensure_memory_budget` (daemon.py:135-158). -/
def ensureMemoryBudget (cfg : Config) (rss : List (String × LoadedModel) → ℚ)
    (maxRam : ℚ) (mgr : Manager) (slot : String) : Manager :=
  ensureBudgetLoop cfg rss maxRam (estimateModelMemory slot) mgr.models.length mgr

/-- `ModelManager._load_model_sync` (daemon.py:69-90): raises `ValueError` for
a slot without configuration or other than `embedder`/`reranker`; the actual
model construction is external and only its success matters here. -/
def loadModelSync (cfg : Config) (slot : String) : Except String Unit :=
  match cfgFind cfg slot with
  | none => .error ("Unknown model slot: " ++ slot)
  | some _ =>
    if slot = "embedder" ∨ slot = "reranker" then .ok ()
    else .error ("Unknown model slot: " ++ slot)

/-- `ModelManager._schedule_unload` (daemon.py:187-212): for an `on_demand`
slot with positive `idle_timeout_seconds`, cancel any existing task for the
slot and arm a task that fires `timeout` after `now`, capturing `timeout`. -/
def scheduleUnload (cfg : Config) (mgr : Manager) (slot : String) (now : ℚ) : Manager :=
  match cfgFind cfg slot with
  | none => mgr
  | some sc =>
    if sc.keepLoaded ≠ .onDemand then mgr
    else if sc.idleTimeoutSeconds ≤ 0 then mgr
    else
      { mgr with
        pendingUnload := (mgr.pendingUnload.filter (fun p => ¬ p.1 == slot)) ++
          [(slot, now + sc.idleTimeoutSeconds, sc.idleTimeoutSeconds)] }

/-- `self._models.move_to_end(slot)` after mutating the entry in place
(daemon.py:97-100): the slot's entry, updated, moves to the MRU end. -/
def moveToEnd (models : List (String × LoadedModel)) (slot : String)
    (m : LoadedModel) : List (String × LoadedModel) :=
  (models.filter (fun p => ¬ p.1 == slot)) ++ [(slot, m)]

/-- `ModelManager.load_model` (daemon.py:92-133).

Hit: touch `last_used`, move to the MRU end, return the entry (no
re-scheduling of the idle-unload task).  Miss: cancel any pending unload
task, enforce the memory budget (evicting as needed), load synchronously
(which can raise), record the entry with `loaded_at = last_used = now` and
the memory estimate, and arm the idle-unload task for `on_demand` slots. -/
def loadModel (cfg : Config) (rss : List (String × LoadedModel) → ℚ) (maxRam : ℚ)
    (mgr : Manager) (slot : String) (now : ℚ) : Manager × Except String LoadedModel :=
  match findModel mgr.models slot with
  | some m =>
    let m' := { m with lastUsed := now }
    ({ mgr with models := moveToEnd mgr.models slot m' }, .ok m')
  | none =>
    let mgr1 : Manager :=
      { mgr with pendingUnload := mgr.pendingUnload.filter (fun p => ¬ p.1 == slot) }
    let mgr2 := ensureMemoryBudget cfg rss maxRam mgr1 slot
    match loadModelSync cfg slot with
    | .error e => (mgr2, .error e)
    | .ok _ =>
      let model : LoadedModel := ⟨slot, now, now, estimateModelMemory slot⟩
      let mgr3 : Manager := { mgr2 with models := mgr2.models ++ [(slot, model)] }
      (scheduleUnload cfg mgr3 slot now, .ok model)

/-- The body of `_delayed_unload` after its sleep (daemon.py:200-206): if the
slot is still loaded and `now - last_used >= timeout` (with the timeout
captured when the task was armed), unload it through `unload_model` (which
re-checks pinning). -/
def delayedUnloadBody (cfg : Config) (mgr : Manager) (slot : String)
    (timeout now : ℚ) : Manager :=
  match findModel mgr.models slot with
  | none => mgr
  | some m => if now - m.lastUsed ≥ timeout then unloadModel cfg mgr slot else mgr

/-- A pending task for `slot` firing at time `now`: the task completes (is
removed from the pending list) and runs `delayedUnloadBody`.  If no task for
the slot is due at `now`, nothing happens. -/
def fireTask (cfg : Config) (mgr : Manager) (slot : String) (now : ℚ) : Manager :=
  match mgr.pendingUnload.find? (fun p => p.1 == slot) with
  | none => mgr
  | some (_, fireAt, timeout) =>
    if fireAt = now then
      delayedUnloadBody cfg
        { mgr with pendingUnload := mgr.pendingUnload.filter (fun p => ¬ p.1 == slot) }
        slot timeout now
    else mgr

/-- One `get_status().loaded_models` entry (daemon.py:222-236). -/
structure StatusEntry where
  loadedAt : ℚ
  lastUsed : ℚ
  memoryMb : ℚ
  idleSeconds : ℚ
  deriving DecidableEq, Repr

/-- `ModelManager.get_status` evaluated at time `now`: the `loaded_models`
map, with `idle_seconds = now - last_used`. -/
def getStatus (mgr : Manager) (now : ℚ) : List (String × StatusEntry) :=
  mgr.models.map fun p => (p.1, ⟨p.2.loadedAt, p.2.lastUsed, p.2.memoryMb, now - p.2.lastUsed⟩)

/-- The events of the manager claims: a `load_model` call, an `unload_model`
call, and a scheduled unload task firing, each stamped with the time at which
it runs. -/
inductive MEvent
  | load (slot : String) (now : ℚ)
  | unload (slot : String)
  | fire (slot : String) (now : ℚ)

/-- Apply one event to the manager state. -/
def stepEvent (cfg : Config) (rss : List (String × LoadedModel) → ℚ) (maxRam : ℚ)
    (mgr : Manager) : MEvent → Manager
  | .load slot now => (loadModel cfg rss maxRam mgr slot now).1
  | .unload slot => unloadModel cfg mgr slot
  | .fire slot now => fireTask cfg mgr slot now

/-- Apply a sequence of events in order. -/
def runEvents (cfg : Config) (rss : List (String × LoadedModel) → ℚ) (maxRam : ℚ)
    (mgr : Manager) (evs : List MEvent) : Manager :=
  evs.foldl (stepEvent cfg rss maxRam) mgr

/-! ## JSON-RPC dispatcher (`daemon.py`, `FastSearchDaemon._handle_request`)

A received frame's payload either fails `json.loads` (`malformed`), parses to
a JSON value that is not an object (on which `request.get` raises
`AttributeError`, modelled as `nonObject`), or parses to an object from which
the dispatcher reads `id`, `method` and `params`.  A Python exception is its
`str(e)` rendering (which is what reaches the error envelope's `message`).
Handlers are functions from the parameters to `Except String` of a result
value; the stateful handlers (search, status, model management …) perform IO
and model inference and are abstracted as the parameter `other` of the
handler table, whose dispatch-relevant structure — the nine method names, and
the `embed` parameter validation — is concrete. -/

/-- The request parameters, restricted to the field the concretely modelled
handlers read (`params.get("texts", [])`). -/
structure Params where
  texts : Option (List String)
  deriving DecidableEq, Repr

/-- Result payloads: `ping`'s pong (timestamp omitted), `embed`'s embeddings
with their count and timing (timing omitted), and the opaque results of the
abstracted handlers. -/
inductive RVal
  | pong
  | embedResult (embeddings : List (List ℚ)) (count : Nat)
  | opaqueResult (tag : String)
  deriving DecidableEq, Repr

/-- A decoded inbound frame, after `json.loads`. -/
inductive RpcIn
  | malformed (msg : String)
  | nonObject
  | request (id : Option Int) (method : Option String) (params : Params)

/-- A JSON-RPC response: a result or an error envelope `{code, message}`,
echoing the request `id`. -/
inductive RpcOut
  | result (v : RVal) (id : Option Int)
  | error (code : Int) (message : String) (id : Option Int)
  deriving DecidableEq, Repr

/-- `FastSearchDaemon._handle_embed` (daemon.py:353-370): an absent or empty
`texts` raises `ValueError("Missing 'texts' parameter")` (Python falsiness);
otherwise the embedder (abstracted as `embedFn`) produces the embeddings and
`count = len(embeddings)`. -/
def handleEmbed (embedFn : List String → List (List ℚ)) (params : Params) :
    Except String RVal :=
  let texts := params.texts.getD []
  if texts.isEmpty then .error "Missing 'texts' parameter"
  else .ok (.embedResult (embedFn texts) (embedFn texts).length)

/-- `self._handlers` (daemon.py:272-282): the nine registered methods.
`ping` and `embed` are modelled concretely; the remaining handlers are
abstracted by `other` (they touch the database, the model manager or the
daemon lifecycle, none of which the dispatcher claims depend on). -/
def daemonHandlers (embedFn : List String → List (List ℚ))
    (other : String → Params → Except String RVal) (m : String) :
    Option (Params → Except String RVal) :=
  if m = "ping" then some (fun _ => .ok .pong)
  else if m = "status" then some (other "status")
  else if m = "search" then some (other "search")
  else if m = "embed" then some (handleEmbed embedFn)
  else if m = "rerank" then some (other "rerank")
  else if m = "load_model" then some (other "load_model")
  else if m = "unload_model" then some (other "unload_model")
  else if m = "reload_config" then some (other "reload_config")
  else if m = "shutdown" then some (other "shutdown")
  else none

/-- `FastSearchDaemon._handle_request` (daemon.py:447-484), for a handler
table `handlers`.

* JSON parse failure → `-32700` response with `id: null`;
* a parsed object whose `method` is not a handler-table key (including an
  absent `method`, `None`) → `-32601` echoing the request id;
* a handler that raises → `-32000` with `str(e)` echoing the request id;
* a handler that returns → a result response.

The one payload the dispatcher does not answer is valid JSON that is not an
object: `request.get("id")` raises `AttributeError` outside any handler
`try`, propagating to `_handle_client` (daemon.py:508), modelled by the outer
`Except`. -/
def handleRequest (handlers : String → Option (Params → Except String RVal)) :
    RpcIn → Except String RpcOut
  | .malformed msg => .ok (.error (-32700) ("Parse error: " ++ msg) none)
  | .nonObject => .error "AttributeError: request is not a JSON object"
  | .request id method params =>
    match method.bind handlers with
    | none => .ok (.error (-32601) ("Method not found: " ++ method.getD "None") id)
    | some h =>
      match h params with
      | .ok v => .ok (.result v id)
      | .error e => .ok (.error (-32000) e id)

/-! ## Theorems: index-store consistency (C1) and batch atomicity (C2) -/

theorem filter_map_id_comm (l : List Doc) (p : Doc → Bool) (q : Nat → Bool)
    (h : ∀ d ∈ l, q d.id = p d) :
    (l.map Doc.id).filter q = (l.filter p).map Doc.id := by
  induction l with
  | nil => rfl
  | cons d t ih =>
    have hd := h d (by simp)
    have ht := ih fun x hx => h x (by simp [hx])
    by_cases hp : p d = true
    · simp [List.filter, hd, hp, ht]
    · simp only [Bool.not_eq_true] at hp
      simp [List.filter, hd, hp, ht]

theorem indexDocument_ok (db : DB) (s : String) (ci : Nat) (c : String) (e : List ℚ)
    (he : e.length = DIM) :
    indexDocument db s ci c e =
      ({ docs := db.docs ++ [⟨db.nextId, s, ci, c⟩]
         fts := db.fts ++ [db.nextId]
         vec := db.vec ++ [db.nextId]
         nextId := db.nextId + 1 }, .ok db.nextId) := by
  simp [indexDocument, he]

theorem wf_indexDocument (db : DB) (s : String) (ci : Nat) (c : String) (e : List ℚ)
    (he : e.length = DIM) (hwf : Wf db) : Wf (indexDocument db s ci c e).1 := by
  obtain ⟨h1, h2, h3, h4⟩ := hwf
  rw [indexDocument_ok db s ci c e he]
  refine ⟨?_, ?_, ?_, ?_⟩
  · simp [h1]
  · simp [h2]
  · simp only [List.map_append, List.map_cons, List.map_nil]
    rw [List.nodup_append]
    refine ⟨h3, List.nodup_singleton _, ?_⟩
    intro i hi hmem
    have : i < db.nextId := by
      simp only [List.mem_map] at hi
      obtain ⟨d, hd, rfl⟩ := hi
      exact h4 d hd
    simp only [List.mem_singleton] at hmem
    omega
  · intro d hd
    simp only [List.mem_append, List.mem_singleton] at hd
    rcases hd with hd | rfl
    · exact Nat.lt_succ_of_lt (h4 d hd)
    · exact Nat.lt_succ_self _

theorem wf_indexBatch (items : List Item) (db : DB)
    (he : ∀ it ∈ items, it.embedding.length = DIM) (hwf : Wf db) :
    Wf (indexBatch db items).1 := by
  induction items generalizing db with
  | nil => simpa [indexBatch]
  | cons it rest ih =>
    have hit : it.embedding.length = DIM := he it (by simp)
    have hrest : ∀ x ∈ rest, x.embedding.length = DIM := fun x hx => he x (by simp [hx])
    have h1 := wf_indexDocument db it.source it.chunkIndex it.content it.embedding hit hwf
    rw [indexDocument_ok db it.source it.chunkIndex it.content it.embedding hit] at h1
    simp only [indexBatch,
      indexDocument_ok db it.source it.chunkIndex it.content it.embedding hit]
    have h2 := ih _ hrest h1
    cases h : indexBatch
      { docs := db.docs ++ [⟨db.nextId, it.source, it.chunkIndex, it.content⟩]
        fts := db.fts ++ [db.nextId]
        vec := db.vec ++ [db.nextId]
        nextId := db.nextId + 1 } rest with
    | mk db2 r =>
      rw [h] at h2
      cases r <;> simpa using h2

theorem wf_deleteSource (db : DB) (s : String) (hwf : Wf db) :
    Wf (deleteSource db s).1 := by
  obtain ⟨h1, h2, h3, h4⟩ := hwf
  cases hids : ((db.docs.filter (fun d => d.source == s)).map Doc.id).isEmpty with
  | true =>
    simp only [deleteSource, hids, if_true]
    exact ⟨h1, h2, h3, h4⟩
  | false =>
    simp only [deleteSource, hids, Bool.false_eq_true, if_false]
    have hmem : ∀ d ∈ db.docs,
        (d.id ∈ (db.docs.filter (fun x => x.source == s)).map Doc.id ↔ d.source = s) := by
      intro d hd
      constructor
      · intro hc
        simp only [List.mem_map, List.mem_filter] at hc
        obtain ⟨d', ⟨hd', hsd'⟩, hdd'⟩ := hc
        have := List.inj_on_of_nodup_map h3 hd' hd hdd'
        subst this
        simpa using hsd'
      · intro hs
        simp only [List.mem_map, List.mem_filter]
        exact ⟨d, ⟨hd, by simp [hs]⟩, rfl⟩
    have hcomm : (db.docs.map Doc.id).filter
          (fun i => decide (i ∉ (db.docs.filter (fun d => d.source == s)).map Doc.id))
        = (db.docs.filter (fun d => decide (d.source ≠ s))).map Doc.id := by
      apply filter_map_id_comm
      intro d hd
      rw [decide_eq_decide]
      rw [hmem d hd]
    refine ⟨?_, ?_, ?_, ?_⟩
    · rw [h1]; exact hcomm
    · rw [h2]; exact hcomm
    · rw [← hcomm]; exact h3.filter _
    · intro d hd
      exact h4 d (List.mem_of_mem_filter hd)

theorem wf_emptyDB : Wf emptyDB := by
  refine ⟨rfl, rfl, List.nodup_nil, ?_⟩
  intro d hd
  simp [emptyDB] at hd

theorem reachable_wf (db : DB) (h : Reachable db) : Wf db := by
  induction h with
  | empty => exact wf_emptyDB
  | indexDoc db s ci c e _ he ih => exact wf_indexDocument db s ci c e he ih
  | indexBatch db items _ he ih => exact wf_indexBatch items db he ih
  | deleteSrc db s _ ih => exact wf_deleteSource db s ih

theorem wf_inv (db : DB) (h : Wf db) : Inv db := by
  obtain ⟨h1, h2, h3, h4⟩ := h
  refine ⟨h3, ?_, ?_, ?_⟩
  · intro i hi
    rw [h1, h2]
    exact ⟨List.count_eq_one_of_mem h3 hi, List.count_eq_one_of_mem h3 hi⟩
  · intro i hi; rwa [h1] at hi
  · intro i hi; rwa [h2] at hi

/-- C1 (counterexample): the invariant does not hold at every observable
point.  `index_document` with a wrong-dimension embedding commits the chunk
and FTS rows (autocommit) before the `docs_vec` insert raises, leaving id 1
in the chunk table with no vector entry — and no transaction rolls it back. -/
theorem C1_counterexample :
    Inv emptyDB ∧
    (indexDocument emptyDB "a" 0 "text" []).2 = .error .dimensionMismatch ∧
    ¬ Inv (indexDocument emptyDB "a" 0 "text" []).1 := by
  refine ⟨by decide, rfl, ?_⟩
  decide

/-- C1 (amended): starting from an empty store, the public mutations
`index_document`, `index_batch` (with embeddings of the vector table's
dimension 768, the success precondition of the vector insert) and
`delete_source` preserve the exactly-one correspondence between chunk rows,
FTS entries and vector entries, so it holds in every state so reachable. -/
theorem C1_index_consistency (db : DB) (h : Reachable db) : Inv db :=
  wf_inv db (reachable_wf db h)

theorem C1_index_consistency_witness :
    Inv (deleteSource (indexBatch emptyDB
      [⟨"a", 0, "x", emb768⟩, ⟨"b", 0, "y", emb768⟩]).1 "a").1 :=
  C1_index_consistency _
    (Reachable.deleteSrc _ "a"
      (Reachable.indexBatch emptyDB _ Reachable.empty (by
        intro it hit
        simp only [List.mem_cons, List.mem_singleton, List.not_mem_nil, or_false] at hit
        rcases hit with rfl | rfl <;> simp [emb768])))

theorem indexBatch_all_ok (items : List Item) (db : DB)
    (he : ∀ it ∈ items, it.embedding.length = DIM) :
    indexBatch db items =
      ({ docs := db.docs ++ ((List.range' db.nextId items.length).zip items).map
           (fun p => ⟨p.1, p.2.source, p.2.chunkIndex, p.2.content⟩)
         fts := db.fts ++ List.range' db.nextId items.length
         vec := db.vec ++ List.range' db.nextId items.length
         nextId := db.nextId + items.length },
       .ok (List.range' db.nextId items.length)) := by
  induction items generalizing db with
  | nil => simp [indexBatch]
  | cons it rest ih =>
    have hit : it.embedding.length = DIM := he it (by simp)
    have hrest : ∀ x ∈ rest, x.embedding.length = DIM := fun x hx => he x (by simp [hx])
    simp only [indexBatch, indexDocument_ok db it.source it.chunkIndex it.content it.embedding hit]
    rw [ih _ hrest]
    simp [List.range'_succ, List.append_assoc]
    omega

theorem indexBatch_partial_commit (pre : List Item) (bad : Item) (rest : List Item)
    (db : DB) (hpre : ∀ it ∈ pre, it.embedding.length = DIM)
    (hbad : bad.embedding.length ≠ DIM) :
    (indexBatch db (pre ++ bad :: rest)).2 = .error .dimensionMismatch ∧
    (indexBatch db (pre ++ bad :: rest)).1.vec = db.vec ++ List.range' db.nextId pre.length ∧
    (indexBatch db (pre ++ bad :: rest)).1.docs.length
      = db.docs.length + pre.length + 1 := by
  induction pre generalizing db with
  | nil =>
    simp only [List.nil_append, indexBatch]
    have : indexDocument db bad.source bad.chunkIndex bad.content bad.embedding =
        ({ docs := db.docs ++ [⟨db.nextId, bad.source, bad.chunkIndex, bad.content⟩]
           fts := db.fts ++ [db.nextId]
           vec := db.vec
           nextId := db.nextId + 1 }, .error .dimensionMismatch) := by
      simp [indexDocument, hbad]
    rw [this]
    simp
  | cons it pre' ih =>
    have hit : it.embedding.length = DIM := hpre it (by simp)
    have hpre' : ∀ x ∈ pre', x.embedding.length = DIM := fun x hx => hpre x (by simp [hx])
    simp only [List.cons_append, indexBatch,
      indexDocument_ok db it.source it.chunkIndex it.content it.embedding hit]
    obtain ⟨h2, hvec, hlen⟩ := ih
      { docs := db.docs ++ [⟨db.nextId, it.source, it.chunkIndex, it.content⟩]
        fts := db.fts ++ [db.nextId]
        vec := db.vec ++ [db.nextId]
        nextId := db.nextId + 1 } hpre'
    cases h : indexBatch
      { docs := db.docs ++ [⟨db.nextId, it.source, it.chunkIndex, it.content⟩]
        fts := db.fts ++ [db.nextId]
        vec := db.vec ++ [db.nextId]
        nextId := db.nextId + 1 } (pre' ++ bad :: rest) with
    | mk db2 r =>
      rw [h] at h2 hvec hlen
      cases r with
      | ok ids => simp at h2
      | error e =>
        cases e
        simp only at h2 hvec hlen ⊢
        refine ⟨by simp, ?_, ?_⟩
        · rw [hvec]
          simp [List.range'_succ, List.append_assoc]
        · rw [hlen]
          simp only [List.length_append, List.length_cons, List.length_nil]
          omega

/-- C2 (counterexample): `index_batch` is not atomic.  Batch of two items
where the second has a wrong-dimension embedding: the call fails, yet the
first item's chunk/FTS/vector rows and the second item's chunk/FTS rows are
already committed (apsw autocommits each statement; no transaction wraps the
loop). -/
theorem C2_counterexample :
    (indexBatch emptyDB [⟨"a", 0, "x", emb768⟩, ⟨"a", 1, "y", []⟩]).2
      = .error .dimensionMismatch ∧
    ((indexBatch emptyDB [⟨"a", 0, "x", emb768⟩, ⟨"a", 1, "y", []⟩]).1.docs.map Doc.id
      = [1, 2] ∧
     (indexBatch emptyDB [⟨"a", 0, "x", emb768⟩, ⟨"a", 1, "y", []⟩]).1.vec = [1]) := by
  have hgood : (emb768 : List ℚ).length = 768 := by
    simp only [emb768, List.length_replicate, DIM]
  simp [indexBatch, indexDocument, emptyDB, DIM, hgood]

/-- C2 (amended): `index_batch` inserts the items sequentially, each
statement autocommitted.  On success — every embedding of dimension 768 —
the returned id list is the consecutive rowids in input order (same length
as the input, `k`-th id belonging to the `k`-th item); if an item has a
wrong-dimension embedding, the call raises with every earlier item fully
committed and the failing item's chunk row committed, so the batch is not
all-or-nothing. -/
theorem C2_index_batch (db : DB) (items pre rest : List Item) (bad : Item)
    (hok : ∀ it ∈ items, it.embedding.length = DIM)
    (hpre : ∀ it ∈ pre, it.embedding.length = DIM)
    (hbad : bad.embedding.length ≠ DIM) :
    ((indexBatch db items).2 = .ok (List.range' db.nextId items.length) ∧
     (indexBatch db items).1.docs = db.docs ++
       ((List.range' db.nextId items.length).zip items).map
         (fun p => ⟨p.1, p.2.source, p.2.chunkIndex, p.2.content⟩)) ∧
    ((indexBatch db (pre ++ bad :: rest)).2 = .error .dimensionMismatch ∧
     (indexBatch db (pre ++ bad :: rest)).1.vec
       = db.vec ++ List.range' db.nextId pre.length ∧
     (indexBatch db (pre ++ bad :: rest)).1.docs.length
       = db.docs.length + pre.length + 1) := by
  constructor
  · rw [indexBatch_all_ok items db hok]
    exact ⟨rfl, rfl⟩
  · exact indexBatch_partial_commit pre bad rest db hpre hbad

theorem C2_index_batch_witness :
    ((indexBatch emptyDB [⟨"a", 0, "x", emb768⟩]).2 = .ok (List.range' 1 1) ∧
     (indexBatch emptyDB [⟨"a", 0, "x", emb768⟩]).1.docs = emptyDB.docs ++
       ((List.range' 1 1).zip [(⟨"a", 0, "x", emb768⟩ : Item)]).map
         (fun p => (⟨p.1, p.2.source, p.2.chunkIndex, p.2.content⟩ : Doc))) ∧
    ((indexBatch emptyDB ([⟨"a", 0, "x", emb768⟩] ++ ⟨"b", 0, "y", []⟩ :: [])).2
       = .error .dimensionMismatch ∧
     (indexBatch emptyDB ([⟨"a", 0, "x", emb768⟩] ++ ⟨"b", 0, "y", []⟩ :: [])).1.vec
       = emptyDB.vec ++ List.range' 1 1 ∧
     (indexBatch emptyDB ([⟨"a", 0, "x", emb768⟩] ++ ⟨"b", 0, "y", []⟩ :: [])).1.docs.length
       = emptyDB.docs.length + 1 + 1) :=
  C2_index_batch emptyDB [⟨"a", 0, "x", emb768⟩] [⟨"a", 0, "x", emb768⟩] []
    ⟨"b", 0, "y", []⟩
    (by intro it hit; simp only [List.mem_singleton] at hit; subst hit; simp [emb768])
    (by intro it hit; simp only [List.mem_singleton] at hit; subst hit; simp [emb768])
    (by simp [DIM])

/-! ## Theorems: hybrid search (C3, C4, C5)

Python's `list.sort(key=..., reverse=True)` is a stable sort: it orders by the
key descending and keeps equal-keyed elements in their incoming order.  The
two lemmas below capture exactly that for `List.mergeSort` with the reversed
`ℚ` comparison: the output is sorted by the key descending, and when the
incoming list is strictly increasing along some position function `pos`,
equal-keyed elements stay in `pos` order. -/

theorem mergeSort_desc_trans {α : Type} (key : α → ℚ) :
    ∀ a b c : α, decide (key b ≤ key a) = true → decide (key c ≤ key b) = true →
      decide (key c ≤ key a) = true := fun _ _ _ hab hbc =>
  decide_eq_true (le_trans (of_decide_eq_true hbc) (of_decide_eq_true hab))

theorem mergeSort_desc_total {α : Type} (key : α → ℚ) :
    ∀ a b : α, (decide (key b ≤ key a) || decide (key a ≤ key b)) = true := by
  intro a b
  rcases le_total (key b) (key a) with h | h <;> simp [h]

theorem mergeSort_desc_pairwise {α : Type} (key : α → ℚ) (l : List α) :
    (l.mergeSort fun a b => decide (key b ≤ key a)).Pairwise
      fun a b => key b ≤ key a := by
  have h := List.sorted_mergeSort (mergeSort_desc_trans key) (mergeSort_desc_total key) l
  exact h.imp fun hab => of_decide_eq_true hab

theorem mergeSort_desc_stable {α : Type} (key : α → ℚ) (pos : α → Nat) (l : List α)
    (hpos : l.Pairwise fun a b => pos a < pos b) :
    (l.mergeSort fun a b => decide (key b ≤ key a)).Pairwise
      fun a b => key b ≤ key a ∧ (key a ≤ key b → pos a < pos b) := by
  have hP : (l.enum.mergeSort (List.enumLE fun a b => decide (key b ≤ key a))).Pairwise
      fun a b => List.enumLE (fun a b => decide (key b ≤ key a)) a b = true :=
    List.sorted_mergeSort (List.enumLE_trans (mergeSort_desc_trans key))
      (List.enumLE_total (mergeSort_desc_total key)) l.enum
  have hnodupE : l.enum.Nodup := by
    refine List.Nodup.of_map Prod.fst ?_
    rw [List.enum_map_fst]
    exact List.nodup_range _
  have hnodupP : (l.enum.mergeSort (List.enumLE fun a b => decide (key b ≤ key a))).Nodup :=
    (List.mergeSort_perm l.enum _).symm.nodup hnodupE
  have hmemP : ∀ p ∈ l.enum.mergeSort (List.enumLE fun a b => decide (key b ≤ key a)),
      l[p.1]? = some p.2 := by
    intro p hp
    rw [List.mem_mergeSort] at hp
    exact List.mem_enum_iff_getElem?.mp hp
  rw [← List.mergeSort_enum, List.pairwise_map]
  have hP2 := (List.Pairwise.and_mem.mp (hP.and hnodupP))
  refine hP2.imp ?_
  intro a b hab
  obtain ⟨haP, hbP, henum, hne⟩ := hab
  obtain ⟨ha, ha2⟩ := List.getElem?_eq_some.mp (hmemP a haP)
  obtain ⟨hb, hb2⟩ := List.getElem?_eq_some.mp (hmemP b hbP)
  rw [List.enumLE] at henum
  by_cases h1 : decide (key b.2 ≤ key a.2) = true
  · refine ⟨of_decide_eq_true h1, ?_⟩
    intro hk
    have h2 : decide (key a.2 ≤ key b.2) = true := decide_eq_true hk
    rw [if_pos h1, if_pos h2] at henum
    have hle : a.1 ≤ b.1 := of_decide_eq_true henum
    have hlt : a.1 < b.1 := by
      rcases Nat.lt_or_ge a.1 b.1 with h | h
      · exact h
      · exfalso
        apply hne
        have heq : a.1 = b.1 := Nat.le_antisymm hle h
        refine Prod.ext heq ?_
        rw [← ha2, ← hb2]
        congr 1
    have := List.pairwise_iff_getElem.mp hpos a.1 b.1 ha hb hlt
    rwa [ha2, hb2] at this
  · rw [if_neg h1] at henum
    exact absurd henum (by simp)

theorem pairwise_enumFrom_snd {α : Type} (R : α → α → Prop) (n : Nat) (l : List α)
    (h : l.Pairwise R) : (List.enumFrom n l).Pairwise fun p q => R p.2 q.2 := by
  induction l generalizing n with
  | nil => simp
  | cons a t ih =>
    rw [List.enumFrom_cons, List.pairwise_cons]
    rw [List.pairwise_cons] at h
    refine ⟨?_, ih (n + 1) h.2⟩
    intro q hq
    have hq2 : q.2 ∈ t := by
      have := List.enumFrom_map_snd (n + 1) t
      rw [← this]
      exact List.mem_map_of_mem Prod.snd hq
    exact h.1 q.2 hq2

theorem enumFrom_map_snd_id (n : Nat) (l : List Row) :
    (List.enumFrom n l).map (fun p => p.2.id) = l.map Row.id := by
  have h1 : (List.enumFrom n l).map (fun p => p.2.id)
      = ((List.enumFrom n l).map Prod.snd).map Row.id := by
    rw [List.map_map]
    rfl
  rw [h1, List.enumFrom_map_snd]

theorem lookupRow_id (b v : List (Nat × Row)) (i : Nat) (row : Row)
    (h : lookupRow b v i = some row) : row.id = i := by
  rw [lookupRow] at h
  cases hf : (b ++ v).find? (fun p => p.2.id == i) with
  | none => rw [hf] at h; simp at h
  | some p =>
    rw [hf] at h
    simp only [Option.map_some'] at h
    rw [Option.some_inj] at h
    have hq := List.find?_some hf
    rw [← h]
    simpa using hq

theorem rankOf_eq_none_iff (n : Nat) (l : List Row) (i : Nat) :
    rankOf (List.enumFrom n l) i = none ↔ i ∉ l.map Row.id := by
  constructor
  · intro h hmem
    rw [← enumFrom_map_snd_id n l] at hmem
    simp only [List.mem_map] at hmem
    obtain ⟨p, hp, hpi⟩ := hmem
    rw [rankOf] at h
    cases hf : (List.enumFrom n l).find? (fun p => p.2.id == i) with
    | some q => rw [hf] at h; simp at h
    | none =>
      rw [List.find?_eq_none] at hf
      exact hf p hp (by simp [hpi])
  · intro h
    rw [rankOf]
    cases hf : (List.enumFrom n l).find? (fun p => p.2.id == i) with
    | none => rfl
    | some q =>
      exfalso
      have hq := List.find?_some hf
      have hqm := List.mem_of_find?_eq_some hf
      apply h
      rw [← enumFrom_map_snd_id n l]
      simp only [List.mem_map]
      exact ⟨q, hqm, by simpa using hq⟩

theorem rankOf_eq_some (n : Nat) (l : List Row) (i r : Nat)
    (h : rankOf (List.enumFrom n l) i = some r) :
    ∃ hlt : r - n < l.length, n ≤ r ∧ (l.get ⟨r - n, hlt⟩).id = i := by
  rw [rankOf] at h
  cases hf : (List.enumFrom n l).find? (fun p => p.2.id == i) with
  | none => rw [hf] at h; simp at h
  | some q =>
    rw [hf] at h
    simp only [Option.map_some'] at h
    obtain ⟨q1, q2⟩ := q
    have hq := List.find?_some hf
    simp only [beq_iff_eq] at hq
    have hqm := List.mem_enumFrom (List.mem_of_find?_eq_some hf)
    obtain ⟨hn, hlt, hval⟩ := hqm
    simp only at h
    rw [Option.some_inj] at h
    subst h
    have hlt' : q1 - n < l.length := by omega
    refine ⟨hlt', hn, ?_⟩
    rw [List.get_eq_getElem]
    rw [← hval]
    exact hq

theorem isSetIteration_dedup : IsSetIteration (fun l => l.dedup) :=
  fun l => ⟨List.nodup_dedup l, fun _ => List.mem_dedup⟩

theorem nodup_pairwise_indexOf (l : List Nat) (h : l.Nodup) :
    l.Pairwise fun a b => l.indexOf a < l.indexOf b := by
  rw [List.pairwise_iff_getElem]
  intro i j hi hj hij
  have h1 := List.get_indexOf h ⟨i, hi⟩
  have h2 := List.get_indexOf h ⟨j, hj⟩
  rw [List.get_eq_getElem] at h1 h2
  rw [h1, h2]
  exact hij

theorem mem_allIdsOf (setOrder : List Nat → List Nat) (hso : IsSetIteration setOrder)
    (b v : List (Nat × Row)) (i : Nat) :
    i ∈ allIdsOf setOrder b v ↔
      i ∈ b.map (fun p => p.2.id) ∨ i ∈ v.map (fun p => p.2.id) := by
  rw [allIdsOf, (hso _).2, List.mem_append]

theorem lookupRow_isSome (b v : List (Nat × Row)) (i : Nat)
    (hi : i ∈ b.map (fun p => p.2.id) ∨ i ∈ v.map (fun p => p.2.id)) :
    ∃ r, lookupRow b v i = some r := by
  have hfind : ∃ p ∈ b ++ v, (p.2.id == i) = true := by
    rcases hi with hi | hi
    · simp only [List.mem_map] at hi
      obtain ⟨p, hp, hpi⟩ := hi
      exact ⟨p, List.mem_append_left _ hp, by simp [hpi]⟩
    · simp only [List.mem_map] at hi
      obtain ⟨p, hp, hpi⟩ := hi
      exact ⟨p, List.mem_append_right _ hp, by simp [hpi]⟩
  have hsome : ((b ++ v).find? (fun p => p.2.id == i)).isSome = true :=
    List.find?_isSome.mpr hfind
  cases hf : (b ++ v).find? (fun p => p.2.id == i) with
  | none => rw [hf] at hsome; simp at hsome
  | some p => exact ⟨p.2, by rw [lookupRow, hf, Option.map_some']⟩

theorem filterMap_lookup_map_id (b v : List (Nat × Row)) (fl k : Nat) (wb wv : ℚ) :
    ∀ l : List Nat, (∀ i ∈ l, ∃ r, lookupRow b v i = some r) →
    (l.filterMap fun i =>
      (lookupRow b v i).map fun row =>
        ({ row := row
           rrfScore := rrfScoreOf k fl wb wv (rankOf b i) (rankOf v i)
           bm25Rank := rankOf b i
           vecRank := rankOf v i } : HybridCand)).map (fun c => c.row.id) = l := by
  intro l hl
  induction l with
  | nil => rfl
  | cons i t ih =>
    obtain ⟨r, hr⟩ := hl i (by simp)
    rw [List.filterMap_cons, hr, Option.map_some']
    simp only [List.map_cons]
    rw [ih (fun x hx => hl x (by simp [hx]))]
    simp [lookupRow_id b v i r hr]

theorem rrfCandidates_map_id (setOrder : List Nat → List Nat)
    (hso : IsSetIteration setOrder) (b v : List (Nat × Row)) (fl k : Nat) (wb wv : ℚ) :
    (rrfCandidates setOrder b v fl k wb wv).map (fun c => c.row.id)
      = allIdsOf setOrder b v := by
  rw [rrfCandidates]
  refine filterMap_lookup_map_id b v fl k wb wv (allIdsOf setOrder b v) ?_
  intro i hi
  exact lookupRow_isSome b v i ((mem_allIdsOf setOrder hso b v i).mp hi)

theorem rrfCandidates_pairwise_pos (setOrder : List Nat → List Nat)
    (hso : IsSetIteration setOrder) (b v : List (Nat × Row)) (fl k : Nat) (wb wv : ℚ) :
    (rrfCandidates setOrder b v fl k wb wv).Pairwise fun x y =>
      (allIdsOf setOrder b v).indexOf x.row.id
        < (allIdsOf setOrder b v).indexOf y.row.id := by
  have hmap := rrfCandidates_map_id setOrder hso b v fl k wb wv
  have h1 : (allIdsOf setOrder b v).Pairwise fun a c =>
      (allIdsOf setOrder b v).indexOf a < (allIdsOf setOrder b v).indexOf c :=
    nodup_pairwise_indexOf _ (hso _).1
  simp only [← hmap] at h1
  rw [List.pairwise_map] at h1
  simpa only [hmap] using h1

theorem rrfCandidates_mem (setOrder : List Nat → List Nat) (b v : List (Nat × Row))
    (fl k : Nat) (wb wv : ℚ)
    (c : HybridCand) (hc : c ∈ rrfCandidates setOrder b v fl k wb wv) :
    c.row.id ∈ allIdsOf setOrder b v ∧
    lookupRow b v c.row.id = some c.row ∧
    c.bm25Rank = rankOf b c.row.id ∧
    c.vecRank = rankOf v c.row.id ∧
    c.rrfScore = rrfScoreOf k fl wb wv c.bm25Rank c.vecRank := by
  rw [rrfCandidates, List.mem_filterMap] at hc
  obtain ⟨i, hi, hfi⟩ := hc
  simp only [Option.map_eq_some'] at hfi
  obtain ⟨row, hrow, rfl⟩ := hfi
  have hid : row.id = i := lookupRow_id b v i row hrow
  subst hid
  exact ⟨hi, hrow, rfl, rfl, rfl⟩

theorem rrfCandidates_complete (setOrder : List Nat → List Nat)
    (b v : List (Nat × Row)) (fl k : Nat) (wb wv : ℚ)
    (i : Nat) (hi : i ∈ allIdsOf setOrder b v)
    (hlook : ∃ r, lookupRow b v i = some r) :
    ∃ c ∈ rrfCandidates setOrder b v fl k wb wv, c.row.id = i := by
  obtain ⟨r, hr⟩ := hlook
  refine ⟨{ row := r
            rrfScore := rrfScoreOf k fl wb wv (rankOf b i) (rankOf v i)
            bm25Rank := rankOf b i
            vecRank := rankOf v i }, ?_, ?_⟩
  · rw [rrfCandidates, List.mem_filterMap]
    exact ⟨i, hi, by rw [hr, Option.map_some']⟩
  · exact lookupRow_id b v i r hr

theorem searchHybrid_rank_eq (setOrder : List Nat → List Nat)
    (bmOrd vecOrd : List Row) (limit k : Nat) (wb wv : ℚ)
    (j : Nat) (h : j < (searchHybrid setOrder bmOrd vecOrd limit k wb wv).length) :
    ((searchHybrid setOrder bmOrd vecOrd limit k wb wv).get ⟨j, h⟩).rank = j + 1 := by
  have h' := h
  simp only [searchHybrid, List.length_map, List.enumFrom_length] at h'
  simp only [searchHybrid, List.get_eq_getElem, List.getElem_map,
    List.getElem_enumFrom]
  omega

theorem searchHybrid_pairwise_rank (setOrder : List Nat → List Nat)
    (bmOrd vecOrd : List Row) (limit k : Nat) (wb wv : ℚ) :
    (searchHybrid setOrder bmOrd vecOrd limit k wb wv).Pairwise
      fun a b => a.rank < b.rank := by
  rw [List.pairwise_iff_getElem]
  intro i j hi hj hij
  have h1 := searchHybrid_rank_eq setOrder bmOrd vecOrd limit k wb wv i hi
  have h2 := searchHybrid_rank_eq setOrder bmOrd vecOrd limit k wb wv j hj
  rw [List.get_eq_getElem] at h1 h2
  rw [h1, h2]
  omega

theorem searchHybrid_pairwise_score (setOrder : List Nat → List Nat)
    (hso : IsSetIteration setOrder) (bmOrd vecOrd : List Row) (limit k : Nat)
    (wb wv : ℚ) :
    (searchHybrid setOrder bmOrd vecOrd limit k wb wv).Pairwise
      fun a b => b.rrfScore ≤ a.rrfScore ∧ (a.rrfScore ≤ b.rrfScore →
        (allIdsOf setOrder (searchBm25 bmOrd (limit * 3))
            (searchVector vecOrd (limit * 3))).indexOf a.row.id
          < (allIdsOf setOrder (searchBm25 bmOrd (limit * 3))
              (searchVector vecOrd (limit * 3))).indexOf b.row.id) := by
  have hstable := mergeSort_desc_stable HybridCand.rrfScore
    (fun c => (allIdsOf setOrder (searchBm25 bmOrd (limit * 3))
        (searchVector vecOrd (limit * 3))).indexOf c.row.id)
    (rrfCandidates setOrder (searchBm25 bmOrd (limit * 3))
      (searchVector vecOrd (limit * 3)) (limit * 3) k wb wv)
    (rrfCandidates_pairwise_pos setOrder hso _ _ _ _ _ _)
  have htake := hstable.sublist (List.take_sublist limit _)
  have henum := pairwise_enumFrom_snd _ 1 _ htake
  rw [searchHybrid, List.pairwise_map]
  exact henum

/-- C3: in `search_hybrid`, both paths are fetched with `fetch_limit =
3 * limit`; every id appearing in either fetched list yields exactly one
candidate; each candidate's `rrf_score` is
`w_bm25/(k + bm25_rank) + w_vec/(k + vec_rank)` with the sentinel rank
`fetch_limit + 1` substituted for a missing side; the `bm25_rank`/`vec_rank`
fields are `None` exactly when the id is missing from that list, and
otherwise hold the id's 1-based rank in it.  These conclusions hold for
every set-iteration order of `all_ids` (`IsSetIteration`), so they are
independent of CPython's hash-slot order.  (The Nodup hypotheses state that
the fetched rows carry distinct ids, which the SQL joins on the `docs`
primary key guarantee.) -/
theorem C3_rrf_assignment (setOrder : List Nat → List Nat)
    (hso : IsSetIteration setOrder)
    (bmOrd vecOrd : List Row) (limit k : Nat) (wb wv : ℚ)
    (hb : ((bmOrd.take (limit * 3)).map Row.id).Nodup)
    (hv : ((vecOrd.take (limit * 3)).map Row.id).Nodup) :
    (((rrfCandidates setOrder (searchBm25 bmOrd (limit * 3))
          (searchVector vecOrd (limit * 3))
          (limit * 3) k wb wv).map fun c => c.row.id).Nodup ∧
     ∀ i, (∃ c ∈ rrfCandidates setOrder (searchBm25 bmOrd (limit * 3))
            (searchVector vecOrd (limit * 3)) (limit * 3) k wb wv, c.row.id = i) ↔
       (i ∈ (bmOrd.take (limit * 3)).map Row.id ∨
        i ∈ (vecOrd.take (limit * 3)).map Row.id)) ∧
    ∀ c ∈ rrfCandidates setOrder (searchBm25 bmOrd (limit * 3))
        (searchVector vecOrd (limit * 3)) (limit * 3) k wb wv,
      c.rrfScore = wb * (1 / ((k : ℚ) + (c.bm25Rank.getD (limit * 3 + 1) : Nat)))
          + wv * (1 / ((k : ℚ) + (c.vecRank.getD (limit * 3 + 1) : Nat))) ∧
      (c.bm25Rank = none ↔ c.row.id ∉ (bmOrd.take (limit * 3)).map Row.id) ∧
      (c.vecRank = none ↔ c.row.id ∉ (vecOrd.take (limit * 3)).map Row.id) ∧
      (∀ r, c.bm25Rank = some r →
        ∃ hlt : r - 1 < (bmOrd.take (limit * 3)).length,
          1 ≤ r ∧ ((bmOrd.take (limit * 3)).get ⟨r - 1, hlt⟩).id = c.row.id) ∧
      (∀ r, c.vecRank = some r →
        ∃ hlt : r - 1 < (vecOrd.take (limit * 3)).length,
          1 ≤ r ∧ ((vecOrd.take (limit * 3)).get ⟨r - 1, hlt⟩).id = c.row.id) := by
  refine ⟨⟨?_, ?_⟩, ?_⟩
  · rw [rrfCandidates_map_id setOrder hso _ _ (limit * 3) k wb wv]
    exact (hso _).1
  · intro i
    constructor
    · rintro ⟨c, hc, rfl⟩
      have hmem := (rrfCandidates_mem setOrder _ _ (limit * 3) k wb wv c hc).1
      rw [mem_allIdsOf setOrder hso] at hmem
      rwa [searchBm25, searchVector, enumFrom_map_snd_id, enumFrom_map_snd_id] at hmem
    · intro hi
      have hi' : i ∈ (searchBm25 bmOrd (limit * 3)).map (fun p => p.2.id) ∨
          i ∈ (searchVector vecOrd (limit * 3)).map (fun p => p.2.id) := by
        rwa [searchBm25, searchVector, enumFrom_map_snd_id, enumFrom_map_snd_id]
      refine rrfCandidates_complete setOrder _ _ (limit * 3) k wb wv i ?_ ?_
      · rw [mem_allIdsOf setOrder hso]
        exact hi'
      · exact lookupRow_isSome _ _ i hi'
  · intro c hc
    obtain ⟨hmem, hlook, hbr, hvr, hscore⟩ :=
      rrfCandidates_mem setOrder _ _ (limit * 3) k wb wv c hc
    refine ⟨by rw [hscore, rrfScoreOf], ?_, ?_, ?_, ?_⟩
    · rw [hbr, searchBm25, rankOf_eq_none_iff]
    · rw [hvr, searchVector, rankOf_eq_none_iff]
    · intro r hr
      rw [hbr, searchBm25] at hr
      exact rankOf_eq_some 1 _ c.row.id r hr
    · intro r hr
      rw [hvr, searchVector] at hr
      exact rankOf_eq_some 1 _ c.row.id r hr

theorem C3_rrf_assignment_witness :
    (((rrfCandidates (fun l => l.dedup)
          (searchBm25 [⟨1, "s", 0, "alpha"⟩, ⟨2, "s", 1, "beta"⟩] (1 * 3))
          (searchVector [⟨2, "s", 1, "beta"⟩] (1 * 3))
          (1 * 3) 60 1 1).map fun c => c.row.id).Nodup ∧
     ∀ i, (∃ c ∈ rrfCandidates (fun l => l.dedup)
            (searchBm25 [⟨1, "s", 0, "alpha"⟩, ⟨2, "s", 1, "beta"⟩] (1 * 3))
            (searchVector [⟨2, "s", 1, "beta"⟩] (1 * 3)) (1 * 3) 60 1 1, c.row.id = i) ↔
       (i ∈ (([⟨1, "s", 0, "alpha"⟩, ⟨2, "s", 1, "beta"⟩] : List Row).take (1 * 3)).map Row.id ∨
        i ∈ (([⟨2, "s", 1, "beta"⟩] : List Row).take (1 * 3)).map Row.id)) ∧
    ∀ c ∈ rrfCandidates (fun l => l.dedup)
        (searchBm25 [⟨1, "s", 0, "alpha"⟩, ⟨2, "s", 1, "beta"⟩] (1 * 3))
        (searchVector [⟨2, "s", 1, "beta"⟩] (1 * 3)) (1 * 3) 60 1 1,
      c.rrfScore = 1 * (1 / ((60 : ℚ) + (c.bm25Rank.getD (1 * 3 + 1) : Nat)))
          + 1 * (1 / ((60 : ℚ) + (c.vecRank.getD (1 * 3 + 1) : Nat))) ∧
      (c.bm25Rank = none ↔
        c.row.id ∉ (([⟨1, "s", 0, "alpha"⟩, ⟨2, "s", 1, "beta"⟩] : List Row).take (1 * 3)).map Row.id) ∧
      (c.vecRank = none ↔
        c.row.id ∉ (([⟨2, "s", 1, "beta"⟩] : List Row).take (1 * 3)).map Row.id) ∧
      (∀ r, c.bm25Rank = some r →
        ∃ hlt : r - 1 < (([⟨1, "s", 0, "alpha"⟩, ⟨2, "s", 1, "beta"⟩] : List Row).take (1 * 3)).length,
          1 ≤ r ∧ ((([⟨1, "s", 0, "alpha"⟩, ⟨2, "s", 1, "beta"⟩] : List Row).take (1 * 3)).get
            ⟨r - 1, hlt⟩).id = c.row.id) ∧
      (∀ r, c.vecRank = some r →
        ∃ hlt : r - 1 < (([⟨2, "s", 1, "beta"⟩] : List Row).take (1 * 3)).length,
          1 ≤ r ∧ ((([⟨2, "s", 1, "beta"⟩] : List Row).take (1 * 3)).get
            ⟨r - 1, hlt⟩).id = c.row.id) :=
  C3_rrf_assignment (fun l => l.dedup) isSetIteration_dedup
    [⟨1, "s", 0, "alpha"⟩, ⟨2, "s", 1, "beta"⟩] [⟨2, "s", 1, "beta"⟩]
    1 60 1 1 (by decide) (by decide)

unseal List.merge List.mergeSort in
/-- C4 (counterexample): the claimed tie-break is not implemented.  BM25
ordering `[id 5, id 3]`, vector ordering `[id 3, id 5]`, unit weights,
`k = 60`: both ids tie at `1/61 + 1/62`, and the claimed order — smaller
`bm25_rank` first — would put id 5 (bm25_rank 1) before id 3 (bm25_rank 2).
The code sorts only by `rrf_score` (stable), so the tie keeps the iteration
order of the set `all_ids`; for this input that set is `{3, 5}`, whose ids
occupy hash slots 3 and 5 of CPython's initial 8-slot table, so the program
iterates it as `[3, 5]` — here instantiated as the deduplicated ids sorted
ascending — and id 3 is returned first. -/
theorem C4_counterexample :
    (searchHybrid (fun l => l.dedup.mergeSort (fun a b => decide (a ≤ b)))
        [⟨5, "s", 0, "a"⟩, ⟨3, "s", 0, "b"⟩] [⟨3, "s", 0, "b"⟩, ⟨5, "s", 0, "a"⟩]
        10 60 1 1).map (fun r => (r.row.id, r.bm25Rank, r.vecRank, r.rank))
      = [(3, some 2, some 1, 1), (5, some 1, some 2, 2)] ∧
    rrfScoreOf 60 30 1 1 (some 2) (some 1) = rrfScoreOf 60 30 1 1 (some 1) (some 2) ∧
    (searchHybrid (fun l => l.dedup.mergeSort (fun a b => decide (a ≤ b)))
        [⟨5, "s", 0, "a"⟩, ⟨3, "s", 0, "b"⟩] [⟨3, "s", 0, "b"⟩, ⟨5, "s", 0, "a"⟩]
        10 60 1 1).map (fun r => r.rrfScore)
      = [rrfScoreOf 60 30 1 1 (some 2) (some 1), rrfScoreOf 60 30 1 1 (some 1) (some 2)] := by
  have hcands : rrfCandidates (fun l => l.dedup.mergeSort (fun a b => decide (a ≤ b)))
      (searchBm25 [⟨5, "s", 0, "a"⟩, ⟨3, "s", 0, "b"⟩] (10 * 3))
      (searchVector [⟨3, "s", 0, "b"⟩, ⟨5, "s", 0, "a"⟩] (10 * 3)) (10 * 3) 60 1 1
      = [⟨⟨3, "s", 0, "b"⟩, rrfScoreOf 60 30 1 1 (some 2) (some 1), some 2, some 1⟩,
         ⟨⟨5, "s", 0, "a"⟩, rrfScoreOf 60 30 1 1 (some 1) (some 2), some 1, some 2⟩] := by
    rfl
  have hscore : rrfScoreOf 60 30 1 1 (some 2) (some 1)
      = rrfScoreOf 60 30 1 1 (some 1) (some 2) := by
    simp only [rrfScoreOf, Option.getD_some]
    push_cast
    ring
  have hsorted : ([⟨⟨3, "s", 0, "b"⟩, rrfScoreOf 60 30 1 1 (some 2) (some 1), some 2, some 1⟩,
      ⟨⟨5, "s", 0, "a"⟩, rrfScoreOf 60 30 1 1 (some 1) (some 2), some 1, some 2⟩] :
        List HybridCand).Pairwise
      fun a b => (decide (b.rrfScore ≤ a.rrfScore)) = true := by
    rw [List.pairwise_cons]
    refine ⟨?_, List.pairwise_singleton _ _⟩
    intro b hb
    rw [List.mem_singleton] at hb
    subst hb
    simp only [decide_eq_true_eq]
    rw [hscore]
  have hms := List.mergeSort_of_sorted hsorted
  refine ⟨?_, hscore, ?_⟩ <;>
    simp only [searchHybrid, hcands, hms, List.take_cons, List.take_nil,
      List.enumFrom_cons, List.enumFrom_nil, List.map_cons, List.map_nil] <;> rfl

/-- C4 (amended): `search_hybrid` sorts its candidates only by `rrf_score`
descending with Python's stable sort, so equal-scored candidates remain in
the iteration order of the set `all_ids` (CPython's hash-slot order,
implementation-defined) — no (bm25_rank, vec_rank, id) tie-break is applied;
the first `limit` entries are returned with `rank` equal to the 1-based
position.  For every set-iteration order: results are sorted by `rrf_score`
descending with ties in strictly increasing `all_ids`-iteration position,
ranks are positions, and at most `limit` rows are returned; the pipeline is
a deterministic function of the fetched orderings and the (deterministic)
set order, so repeated runs on an unchanged store return identical lists. -/
theorem C4_sort_order (setOrder : List Nat → List Nat)
    (hso : IsSetIteration setOrder)
    (bmOrd vecOrd : List Row) (limit k : Nat) (wb wv : ℚ) :
    (searchHybrid setOrder bmOrd vecOrd limit k wb wv).Pairwise
      (fun a b => b.rrfScore ≤ a.rrfScore ∧
        (a.rrfScore ≤ b.rrfScore →
          (allIdsOf setOrder (searchBm25 bmOrd (limit * 3))
              (searchVector vecOrd (limit * 3))).indexOf a.row.id
            < (allIdsOf setOrder (searchBm25 bmOrd (limit * 3))
                (searchVector vecOrd (limit * 3))).indexOf b.row.id)) ∧
    (∀ j (h : j < (searchHybrid setOrder bmOrd vecOrd limit k wb wv).length),
      ((searchHybrid setOrder bmOrd vecOrd limit k wb wv).get ⟨j, h⟩).rank = j + 1) ∧
    (searchHybrid setOrder bmOrd vecOrd limit k wb wv).length ≤ limit :=
  ⟨searchHybrid_pairwise_score setOrder hso bmOrd vecOrd limit k wb wv,
   searchHybrid_rank_eq setOrder bmOrd vecOrd limit k wb wv,
   by simp [searchHybrid, List.enumFrom_length]⟩

theorem C4_sort_order_witness :
    (searchHybrid (fun l => l.dedup) [⟨5, "s", 0, "a"⟩, ⟨3, "s", 0, "b"⟩]
        [⟨3, "s", 0, "b"⟩, ⟨5, "s", 0, "a"⟩] 10 60 1 1).Pairwise
      (fun a b => b.rrfScore ≤ a.rrfScore ∧
        (a.rrfScore ≤ b.rrfScore →
          (allIdsOf (fun l => l.dedup)
              (searchBm25 [⟨5, "s", 0, "a"⟩, ⟨3, "s", 0, "b"⟩] (10 * 3))
              (searchVector [⟨3, "s", 0, "b"⟩, ⟨5, "s", 0, "a"⟩] (10 * 3))).indexOf a.row.id
            < (allIdsOf (fun l => l.dedup)
                (searchBm25 [⟨5, "s", 0, "a"⟩, ⟨3, "s", 0, "b"⟩] (10 * 3))
                (searchVector [⟨3, "s", 0, "b"⟩, ⟨5, "s", 0, "a"⟩] (10 * 3))).indexOf b.row.id)) ∧
    (∀ j (h : j < (searchHybrid (fun l => l.dedup) [⟨5, "s", 0, "a"⟩, ⟨3, "s", 0, "b"⟩]
        [⟨3, "s", 0, "b"⟩, ⟨5, "s", 0, "a"⟩] 10 60 1 1).length),
      ((searchHybrid (fun l => l.dedup) [⟨5, "s", 0, "a"⟩, ⟨3, "s", 0, "b"⟩]
        [⟨3, "s", 0, "b"⟩, ⟨5, "s", 0, "a"⟩] 10 60 1 1).get ⟨j, h⟩).rank = j + 1) ∧
    (searchHybrid (fun l => l.dedup) [⟨5, "s", 0, "a"⟩, ⟨3, "s", 0, "b"⟩]
        [⟨3, "s", 0, "b"⟩, ⟨5, "s", 0, "a"⟩] 10 60 1 1).length ≤ 10 :=
  C4_sort_order (fun l => l.dedup) isSetIteration_dedup
    [⟨5, "s", 0, "a"⟩, ⟨3, "s", 0, "b"⟩] [⟨3, "s", 0, "b"⟩, ⟨5, "s", 0, "a"⟩] 10 60 1 1

/-- C5: `search_hybrid_reranked` returns at most `limit` results, each
result's `rank` is its 1-based position, results are sorted by the reranker
score descending with ties kept in original RRF-rank order (Python's stable
sort), and with `rerank_top_k = 0` or an empty candidate set the result is
`[]` for every reranker — the reranker is never consulted.  All of this
holds for every set-iteration order of `all_ids`. -/
theorem C5_reranked (setOrder : List Nat → List Nat) (bmOrd vecOrd : List Row)
    (f : String → String → ℚ) (q : String) (limit rerankTopK : Nat) :
    (searchHybridReranked setOrder bmOrd vecOrd f q limit rerankTopK).length ≤ limit ∧
    (∀ j (h : j < (searchHybridReranked setOrder bmOrd vecOrd f q limit rerankTopK).length),
      ((searchHybridReranked setOrder bmOrd vecOrd f q limit rerankTopK).get ⟨j, h⟩).rank
        = j + 1) ∧
    (searchHybridReranked setOrder bmOrd vecOrd f q limit rerankTopK).Pairwise
      (fun a b => b.rerankScore ≤ a.rerankScore ∧
        (a.rerankScore ≤ b.rerankScore → a.base.rank < b.base.rank)) ∧
    (∀ g, searchHybridReranked setOrder bmOrd vecOrd g q limit 0 = []) ∧
    (searchHybrid setOrder bmOrd vecOrd rerankTopK 60 1 1 = [] →
      ∀ g, searchHybridReranked setOrder bmOrd vecOrd g q limit rerankTopK = []) := by
  refine ⟨?_, ?_, ?_, ?_, ?_⟩
  · simp only [searchHybridReranked]
    cases hemp : (searchHybrid setOrder bmOrd vecOrd rerankTopK 60 1 1).isEmpty with
    | true => simp [hemp]
    | false =>
      simp only [hemp, Bool.false_eq_true, if_false, List.length_map,
        List.enumFrom_length, List.length_take]
      exact min_le_left _ _
  · cases hemp : (searchHybrid setOrder bmOrd vecOrd rerankTopK 60 1 1).isEmpty with
    | true =>
      have hEq : searchHybridReranked setOrder bmOrd vecOrd f q limit rerankTopK = [] := by
        simp [searchHybridReranked, hemp]
      rw [hEq]
      intro j h
      simp at h
    | false =>
      have hEq : searchHybridReranked setOrder bmOrd vecOrd f q limit rerankTopK =
          (List.enumFrom 1 ((((searchHybrid setOrder bmOrd vecOrd rerankTopK 60 1 1).map
              (fun c => (⟨c, f q c.row.content, c.rank⟩ : RerankResult))).mergeSort
              (fun a b => decide (b.rerankScore ≤ a.rerankScore))).take limit)).map
            (fun p => (⟨p.2.base, p.2.rerankScore, p.1⟩ : RerankResult)) := by
        simp [searchHybridReranked, hemp]
      rw [hEq]
      intro j h
      simp only [List.get_eq_getElem, List.getElem_map, List.getElem_enumFrom]
      omega
  · simp only [searchHybridReranked]
    cases hemp : (searchHybrid setOrder bmOrd vecOrd rerankTopK 60 1 1).isEmpty with
    | true => simp [hemp]
    | false =>
      simp only [hemp, Bool.false_eq_true, if_false]
      have hcand : (searchHybrid setOrder bmOrd vecOrd rerankTopK 60 1 1).Pairwise
          fun a b => a.rank < b.rank :=
        searchHybrid_pairwise_rank setOrder bmOrd vecOrd rerankTopK 60 1 1
      have hscored : ((searchHybrid setOrder bmOrd vecOrd rerankTopK 60 1 1).map
          fun c => (⟨c, f q c.row.content, c.rank⟩ : RerankResult)).Pairwise
          fun a b => a.base.rank < b.base.rank := by
        rw [List.pairwise_map]
        exact hcand
      have hstable := mergeSort_desc_stable RerankResult.rerankScore
        (fun r => r.base.rank) _ hscored
      have htake := hstable.sublist (List.take_sublist limit _)
      have henum := pairwise_enumFrom_snd _ 1 _ htake
      rw [List.pairwise_map]
      exact henum
  · intro g
    have : searchHybrid setOrder bmOrd vecOrd 0 60 1 1 = [] := by
      simp [searchHybrid]
    simp [searchHybridReranked, this]
  · intro hemp g
    simp [searchHybridReranked, hemp]

theorem C5_reranked_witness :
    (searchHybridReranked (fun l => l.dedup) [⟨1, "s", 0, "alpha"⟩] [⟨1, "s", 0, "alpha"⟩]
        (fun _ _ => 0) "q" 5 2).length ≤ 5 ∧
    (∀ j (h : j < (searchHybridReranked (fun l => l.dedup) [⟨1, "s", 0, "alpha"⟩]
        [⟨1, "s", 0, "alpha"⟩] (fun _ _ => 0) "q" 5 2).length),
      ((searchHybridReranked (fun l => l.dedup) [⟨1, "s", 0, "alpha"⟩] [⟨1, "s", 0, "alpha"⟩]
        (fun _ _ => 0) "q" 5 2).get ⟨j, h⟩).rank = j + 1) ∧
    (searchHybridReranked (fun l => l.dedup) [⟨1, "s", 0, "alpha"⟩] [⟨1, "s", 0, "alpha"⟩]
        (fun _ _ => 0) "q" 5 2).Pairwise
      (fun a b => b.rerankScore ≤ a.rerankScore ∧
        (a.rerankScore ≤ b.rerankScore → a.base.rank < b.base.rank)) ∧
    (∀ g, searchHybridReranked (fun l => l.dedup) [⟨1, "s", 0, "alpha"⟩]
        [⟨1, "s", 0, "alpha"⟩] g "q" 5 0 = []) ∧
    (∀ g, searchHybridReranked (fun l => l.dedup) [] [] g "q" 5 2 = []) :=
  have h := C5_reranked (fun l => l.dedup) [] [] (fun _ _ => 0) "q" 5 2
  ⟨(C5_reranked (fun l => l.dedup) [⟨1, "s", 0, "alpha"⟩] [⟨1, "s", 0, "alpha"⟩]
      (fun _ _ => 0) "q" 5 2).1,
   (C5_reranked (fun l => l.dedup) [⟨1, "s", 0, "alpha"⟩] [⟨1, "s", 0, "alpha"⟩]
      (fun _ _ => 0) "q" 5 2).2.1,
   (C5_reranked (fun l => l.dedup) [⟨1, "s", 0, "alpha"⟩] [⟨1, "s", 0, "alpha"⟩]
      (fun _ _ => 0) "q" 5 2).2.2.1,
   (C5_reranked (fun l => l.dedup) [⟨1, "s", 0, "alpha"⟩] [⟨1, "s", 0, "alpha"⟩]
      (fun _ _ => 0) "q" 5 2).2.2.2.1,
   h.2.2.2.2 (by simp [searchHybrid, rrfCandidates, allIdsOf, searchBm25, searchVector])⟩

/-! ## Theorems: model-manager eviction (C6), idle timeout (C7), load/unload
status (C9) -/

theorem evictable_not_pinned (cfg : Config) (s : String)
    (h : evictable cfg s = true) : pinned cfg s = false := by
  rw [evictable] at h
  rw [pinned]
  cases hc : cfgFind cfg s with
  | none => rfl
  | some sc =>
    rw [hc] at h
    simpa using h

theorem firstEvictable_spec (cfg : Config) (models : List (String × LoadedModel))
    (s : String) (h : firstEvictable cfg models = some s) :
    ∃ pre m post, models = pre ++ (s, m) :: post ∧ evictable cfg s = true ∧
      ∀ p ∈ pre, evictable cfg p.1 = false := by
  induction models with
  | nil => simp [firstEvictable] at h
  | cons q t ih =>
    rw [firstEvictable, List.find?_cons] at h
    cases he : evictable cfg q.1 with
    | true =>
      rw [he] at h
      simp only [Option.map_some'] at h
      rw [Option.some_inj] at h
      subst h
      exact ⟨[], q.2, t, by simp, he, by simp⟩
    | false =>
      rw [he] at h
      obtain ⟨pre, m, post, heq, hev, hpre⟩ := ih h
      refine ⟨q :: pre, m, post, by simp [heq], hev, ?_⟩
      intro p hp
      rcases List.mem_cons.mp hp with rfl | hp
      · exact he
      · exact hpre p hp

theorem unloadModel_length_lt (cfg : Config) (mgr : Manager) (s : String)
    (m : LoadedModel) (hmem : (s, m) ∈ mgr.models) (hev : evictable cfg s = true) :
    (unloadModel cfg mgr s).models.length < mgr.models.length := by
  rw [unloadModel]
  cases hf : findModel mgr.models s with
  | none =>
    exfalso
    rw [findModel] at hf
    cases hf2 : mgr.models.find? (fun p => p.1 == s) with
    | some p => rw [hf2] at hf; simp at hf
    | none =>
      rw [List.find?_eq_none] at hf2
      exact hf2 (s, m) hmem (by simp)
  | some m' =>
    rw [evictable_not_pinned cfg s hev]
    simp only [Bool.false_eq_true, if_false]
    exact List.length_filter_lt_length_iff_exists.mpr ⟨(s, m), hmem, by simp⟩

theorem unloadModel_models_subset (cfg : Config) (mgr : Manager) (s : String)
    (p : String × LoadedModel) (hp : p ∈ (unloadModel cfg mgr s).models) :
    p ∈ mgr.models := by
  rw [unloadModel] at hp
  cases hf : findModel mgr.models s with
  | none => rw [hf] at hp; exact hp
  | some m' =>
    rw [hf] at hp
    by_cases hpin : pinned cfg s = true
    · rw [if_pos hpin] at hp; exact hp
    · rw [if_neg hpin] at hp
      exact List.mem_of_mem_filter hp

theorem unloadModel_keeps_pinned (cfg : Config) (mgr : Manager) (s : String)
    (p : String × LoadedModel) (hp : p ∈ mgr.models) (hpin : pinned cfg p.1 = true) :
    p ∈ (unloadModel cfg mgr s).models := by
  rw [unloadModel]
  cases hf : findModel mgr.models s with
  | none => exact hp
  | some m' =>
    by_cases hps : pinned cfg s = true
    · rw [if_pos hps]; exact hp
    · rw [if_neg hps]
      rw [List.mem_filter]
      refine ⟨hp, ?_⟩
      simp only [decide_eq_true_eq, beq_iff_eq]
      intro heq
      rw [heq] at hpin
      exact hps hpin

theorem scheduleUnload_models (cfg : Config) (mgr : Manager) (slot : String) (now : ℚ) :
    (scheduleUnload cfg mgr slot now).models = mgr.models := by
  rw [scheduleUnload]
  split
  · rfl
  · split
    · rfl
    · split
      · rfl
      · rfl

theorem findModel_eq_none_iff (models : List (String × LoadedModel)) (slot : String) :
    findModel models slot = none ↔ models.find? (fun p => p.1 == slot) = none := by
  rw [findModel, Option.map_eq_none']

theorem ensureBudgetLoop_subset (cfg : Config) (rss : List (String × LoadedModel) → ℚ)
    (maxRam needed : ℚ) (fuel : Nat) (mgr : Manager) :
    ∀ p ∈ (ensureBudgetLoop cfg rss maxRam needed fuel mgr).models, p ∈ mgr.models := by
  induction fuel generalizing mgr with
  | zero => intro p hp; exact hp
  | succ fuel ih =>
    intro p hp
    rw [ensureBudgetLoop] at hp
    by_cases hcond : rss mgr.models + needed > maxRam ∧ mgr.models ≠ []
    · rw [if_pos hcond] at hp
      cases hf : firstEvictable cfg mgr.models with
      | none => rw [hf] at hp; exact hp
      | some s =>
        rw [hf] at hp
        exact unloadModel_models_subset cfg mgr s p (ih _ p hp)
    · rw [if_neg hcond] at hp
      exact hp

theorem ensureBudgetLoop_pinned (cfg : Config) (rss : List (String × LoadedModel) → ℚ)
    (maxRam needed : ℚ) (fuel : Nat) (mgr : Manager)
    (p : String × LoadedModel) (hp : p ∈ mgr.models) (hpin : pinned cfg p.1 = true) :
    p ∈ (ensureBudgetLoop cfg rss maxRam needed fuel mgr).models := by
  induction fuel generalizing mgr with
  | zero => exact hp
  | succ fuel ih =>
    rw [ensureBudgetLoop]
    by_cases hcond : rss mgr.models + needed > maxRam ∧ mgr.models ≠ []
    · rw [if_pos hcond]
      cases hf : firstEvictable cfg mgr.models with
      | none => exact hp
      | some s => exact ih _ (unloadModel_keeps_pinned cfg mgr s p hp hpin)
    · rw [if_neg hcond]; exact hp

theorem ensureBudgetLoop_post (cfg : Config) (rss : List (String × LoadedModel) → ℚ)
    (maxRam needed : ℚ) (fuel : Nat) (mgr : Manager)
    (hfuel : mgr.models.length ≤ fuel) :
    rss (ensureBudgetLoop cfg rss maxRam needed fuel mgr).models + needed ≤ maxRam ∨
    firstEvictable cfg (ensureBudgetLoop cfg rss maxRam needed fuel mgr).models = none := by
  induction fuel generalizing mgr with
  | zero =>
    have : mgr.models = [] := List.length_eq_zero.mp (Nat.le_zero.mp hfuel)
    right
    rw [ensureBudgetLoop, this, firstEvictable]
    rfl
  | succ fuel ih =>
    rw [ensureBudgetLoop]
    by_cases hcond : rss mgr.models + needed > maxRam ∧ mgr.models ≠ []
    · rw [if_pos hcond]
      cases hf : firstEvictable cfg mgr.models with
      | none => right; exact hf
      | some s =>
        obtain ⟨pre, m, post, heq, hev, hpre⟩ := firstEvictable_spec cfg mgr.models s hf
        have hmem : (s, m) ∈ mgr.models := by rw [heq]; simp
        have hlen := unloadModel_length_lt cfg mgr s m hmem hev
        exact ih _ (by omega)
    · rw [if_neg hcond]
      rw [not_and_or] at hcond
      rcases hcond with h | h
      · left
        exact not_lt.mp h
      · right
        rw [not_not] at h
        rw [h, firstEvictable]
        rfl

theorem ensureBudgetLoop_fits (cfg : Config) (rss : List (String × LoadedModel) → ℚ)
    (maxRam needed : ℚ) (fuel : Nat) (mgr : Manager)
    (h : rss mgr.models + needed ≤ maxRam) :
    ensureBudgetLoop cfg rss maxRam needed fuel mgr = mgr := by
  cases fuel with
  | zero => rfl
  | succ fuel =>
    rw [ensureBudgetLoop, if_neg]
    intro hcond
    exact absurd h (not_le.mpr hcond.1)

theorem ensureBudgetLoop_fuel_irrel (cfg : Config) (rss : List (String × LoadedModel) → ℚ)
    (maxRam needed : ℚ) (f1 : Nat) :
    ∀ (f2 : Nat) (mgr : Manager), mgr.models.length ≤ f1 → mgr.models.length ≤ f2 →
    ensureBudgetLoop cfg rss maxRam needed f1 mgr = ensureBudgetLoop cfg rss maxRam needed f2 mgr := by
  induction f1 with
  | zero =>
    intro f2 mgr h1 h2
    have hnil : mgr.models = [] := List.length_eq_zero.mp (Nat.le_zero.mp h1)
    cases f2 with
    | zero => rfl
    | succ f2 =>
      rw [ensureBudgetLoop, ensureBudgetLoop, if_neg]
      intro hcond
      exact hcond.2 hnil
  | succ f1 ih =>
    intro f2 mgr h1 h2
    cases f2 with
    | zero =>
      have hnil : mgr.models = [] := List.length_eq_zero.mp (Nat.le_zero.mp h2)
      rw [ensureBudgetLoop, ensureBudgetLoop, if_neg]
      intro hcond
      exact hcond.2 hnil
    | succ f2 =>
      rw [ensureBudgetLoop]
      conv_rhs => rw [ensureBudgetLoop]
      by_cases hcond : rss mgr.models + needed > maxRam ∧ mgr.models ≠ []
      · rw [if_pos hcond, if_pos hcond]
        cases hf : firstEvictable cfg mgr.models with
        | none => rfl
        | some s =>
          obtain ⟨pre, m, post, heq, hev, hpre⟩ := firstEvictable_spec cfg mgr.models s hf
          have hmem : (s, m) ∈ mgr.models := by rw [heq]; simp
          have hlen := unloadModel_length_lt cfg mgr s m hmem hev
          exact ih f2 _ (by omega) (by omega)
      · rw [if_neg hcond, if_neg hcond]

/-- C6: the eviction policy of `load_model`.  When measured memory plus the
incoming model's estimate fits the budget, nothing is evicted; when it does
not, the loop unloads the least-recently-used evictable slot (the first slot
in LRU order whose configuration is not `keep_loaded = "always"`) and
repeats; pinned slots always survive eviction; the loop stops exactly when
the budget fits or no evictable slot remains; and a fresh `load_model` of a
known slot registers it regardless of whether the budget was met — the
budget is advisory. -/
theorem C6_memory_budget (cfg : Config) (rss : List (String × LoadedModel) → ℚ)
    (maxRam : ℚ) (mgr : Manager) (slot : String) (now : ℚ) :
    (rss mgr.models + estimateModelMemory slot ≤ maxRam →
       ensureMemoryBudget cfg rss maxRam mgr slot = mgr) ∧
    (∀ s, rss mgr.models + estimateModelMemory slot > maxRam →
       firstEvictable cfg mgr.models = some s →
       ensureMemoryBudget cfg rss maxRam mgr slot
         = ensureMemoryBudget cfg rss maxRam (unloadModel cfg mgr s) slot) ∧
    (∀ s, firstEvictable cfg mgr.models = some s →
       ∃ pre m post, mgr.models = pre ++ (s, m) :: post ∧ evictable cfg s = true ∧
         ∀ p ∈ pre, evictable cfg p.1 = false) ∧
    (∀ p ∈ mgr.models, pinned cfg p.1 = true →
       p ∈ (ensureMemoryBudget cfg rss maxRam mgr slot).models) ∧
    (rss (ensureMemoryBudget cfg rss maxRam mgr slot).models
        + estimateModelMemory slot ≤ maxRam ∨
     firstEvictable cfg (ensureMemoryBudget cfg rss maxRam mgr slot).models = none) ∧
    (∀ sc, findModel mgr.models slot = none → cfgFind cfg slot = some sc →
       (slot = "embedder" ∨ slot = "reranker") →
       ∃ m, findModel ((loadModel cfg rss maxRam mgr slot now).1).models slot = some m) := by
  refine ⟨?_, ?_, ?_, ?_, ?_, ?_⟩
  · intro h
    exact ensureBudgetLoop_fits cfg rss maxRam _ _ mgr h
  · intro s hover hf
    obtain ⟨pre, m, post, heq, hev, hpre⟩ := firstEvictable_spec cfg mgr.models s hf
    have hmem : (s, m) ∈ mgr.models := by rw [heq]; simp
    have hne : mgr.models ≠ [] := by rw [heq]; simp
    have hlen := unloadModel_length_lt cfg mgr s m hmem hev
    rw [ensureMemoryBudget, ensureMemoryBudget]
    cases hfl : mgr.models.length with
    | zero => exact absurd (List.length_eq_zero.mp hfl) hne
    | succ n =>
      rw [ensureBudgetLoop, if_pos ⟨hover, hne⟩, hf]
      exact ensureBudgetLoop_fuel_irrel cfg rss maxRam _ n _ _ (by omega) (by omega)
  · exact firstEvictable_spec cfg mgr.models
  · intro p hp hpin
    exact ensureBudgetLoop_pinned cfg rss maxRam _ _ mgr p hp hpin
  · exact ensureBudgetLoop_post cfg rss maxRam _ _ mgr le_rfl
  · intro sc hnone hcfg hslot
    have hsync : loadModelSync cfg slot = .ok () := by
      rw [loadModelSync, hcfg, if_pos hslot]
    simp only [loadModel, hnone, hsync]
    rw [scheduleUnload_models]
    refine ⟨⟨slot, now, now, estimateModelMemory slot⟩, ?_⟩
    simp only
    have hnone2 : (ensureMemoryBudget cfg rss maxRam
        { mgr with pendingUnload :=
            mgr.pendingUnload.filter (fun p => ¬ p.1 == slot) } slot).models.find?
          (fun p => p.1 == slot) = none := by
      rw [List.find?_eq_none]
      intro p hp hpred
      have hp' := ensureBudgetLoop_subset cfg rss maxRam _ _ _ p hp
      simp only at hp'
      rw [findModel_eq_none_iff, List.find?_eq_none] at hnone
      exact hnone p hp' hpred
    rw [findModel, List.find?_append, hnone2, Option.none_or]
    simp

theorem C6_memory_budget_witness :
    (ensureMemoryBudget
        [("embedder", ⟨"bge", Keep.always, 0⟩), ("reranker", ⟨"ce", Keep.onDemand, 300⟩)]
        (fun _ => (0 : ℚ)) 4000 ⟨[("embedder", ⟨"embedder", 0, 0, 450⟩)], []⟩ "reranker"
      = ⟨[("embedder", ⟨"embedder", 0, 0, 450⟩)], []⟩) ∧
    (∃ m, findModel ((loadModel
        [("embedder", ⟨"bge", Keep.always, 0⟩), ("reranker", ⟨"ce", Keep.onDemand, 300⟩)]
        (fun _ => (0 : ℚ)) 4000 ⟨[("embedder", ⟨"embedder", 0, 0, 450⟩)], []⟩
        "reranker" 5).1).models "reranker" = some m) ∧
    (ensureMemoryBudget
        [("embedder", ⟨"bge", Keep.always, 0⟩), ("reranker", ⟨"ce", Keep.onDemand, 300⟩)]
        (fun ms => 300 * ms.length) 100
        ⟨[("embedder", ⟨"embedder", 0, 0, 450⟩), ("reranker", ⟨"reranker", 0, 1, 90⟩)], []⟩
        "summarizer"
      = ensureMemoryBudget
        [("embedder", ⟨"bge", Keep.always, 0⟩), ("reranker", ⟨"ce", Keep.onDemand, 300⟩)]
        (fun ms => 300 * ms.length) 100
        (unloadModel
          [("embedder", ⟨"bge", Keep.always, 0⟩), ("reranker", ⟨"ce", Keep.onDemand, 300⟩)]
          ⟨[("embedder", ⟨"embedder", 0, 0, 450⟩), ("reranker", ⟨"reranker", 0, 1, 90⟩)], []⟩
          "reranker")
        "summarizer") ∧
    (∃ pre m post,
      ([("embedder", ⟨"embedder", 0, 0, 450⟩), ("reranker", ⟨"reranker", 0, 1, 90⟩)]
          : List (String × LoadedModel))
        = pre ++ ("reranker", m) :: post ∧
      evictable [("embedder", ⟨"bge", Keep.always, 0⟩), ("reranker", ⟨"ce", Keep.onDemand, 300⟩)]
        "reranker" = true ∧
      ∀ p ∈ pre, evictable
        [("embedder", ⟨"bge", Keep.always, 0⟩), ("reranker", ⟨"ce", Keep.onDemand, 300⟩)]
        p.1 = false) ∧
    ("embedder", (⟨"embedder", 0, 0, 450⟩ : LoadedModel)) ∈ (ensureMemoryBudget
        [("embedder", ⟨"bge", Keep.always, 0⟩), ("reranker", ⟨"ce", Keep.onDemand, 300⟩)]
        (fun ms => 300 * ms.length) 100
        ⟨[("embedder", ⟨"embedder", 0, 0, 450⟩), ("reranker", ⟨"reranker", 0, 1, 90⟩)], []⟩
        "summarizer").models :=
  ⟨(C6_memory_budget _ _ 4000 _ "reranker" 5).1
     (by
       have h : estimateModelMemory "reranker" = 90 := rfl
       norm_num [h]),
   (C6_memory_budget _ _ 4000 _ "reranker" 5).2.2.2.2.2 ⟨"ce", Keep.onDemand, 300⟩
     rfl rfl (Or.inr rfl),
   (C6_memory_budget _ _ 100 _ "summarizer" 0).2.1 "reranker"
     (by
       have h : estimateModelMemory "summarizer" = 4000 := rfl
       norm_num [h]) rfl,
   (C6_memory_budget _ (fun ms => 300 * ms.length) 100
       ⟨[("embedder", ⟨"embedder", 0, 0, 450⟩), ("reranker", ⟨"reranker", 0, 1, 90⟩)], []⟩
       "summarizer" 0).2.2.1 "reranker" rfl,
   (C6_memory_budget _ _ 100 _ "summarizer" 0).2.2.2.1
     ("embedder", ⟨"embedder", 0, 0, 450⟩) (by simp) rfl⟩

theorem findModel_moveToEnd (ms : List (String × LoadedModel)) (slot : String)
    (m : LoadedModel) : findModel (moveToEnd ms slot m) slot = some m := by
  rw [moveToEnd, findModel, List.find?_append]
  have h1 : (ms.filter fun p => ¬ p.1 == slot).find? (fun p => p.1 == slot) = none := by
    rw [List.find?_eq_none]
    intro p hp
    have h := (List.mem_filter.mp hp).2
    simpa using h
  rw [h1, Option.none_or]
  simp

theorem loadModel_ok_findModel (cfg : Config) (rss : List (String × LoadedModel) → ℚ)
    (maxRam : ℚ) (mgr : Manager) (slot : String) (now : ℚ) (mgr' : Manager)
    (m : LoadedModel) (h : loadModel cfg rss maxRam mgr slot now = (mgr', .ok m)) :
    findModel mgr'.models slot = some m ∧ m.lastUsed = now := by
  rw [loadModel] at h
  cases hf : findModel mgr.models slot with
  | some m0 =>
    rw [hf] at h
    simp only [Prod.mk.injEq] at h
    obtain ⟨h1, h2⟩ := h
    rw [Except.ok.injEq] at h2
    subst h1
    subst h2
    exact ⟨findModel_moveToEnd mgr.models slot _, rfl⟩
  | none =>
    rw [hf] at h
    cases hs : loadModelSync cfg slot with
    | error e => rw [hs] at h; simp at h
    | ok u =>
      rw [hs] at h
      simp only [Prod.mk.injEq] at h
      obtain ⟨h1, h2⟩ := h
      rw [Except.ok.injEq] at h2
      subst h1
      subst h2
      constructor
      · rw [scheduleUnload_models]
        simp only
        have hnone2 : (ensureMemoryBudget cfg rss maxRam
            { mgr with pendingUnload :=
                mgr.pendingUnload.filter (fun p => ¬ p.1 == slot) } slot).models.find?
              (fun p => p.1 == slot) = none := by
          rw [List.find?_eq_none]
          intro p hp hpred
          have hp' := ensureBudgetLoop_subset cfg rss maxRam _ _ _ p hp
          simp only at hp'
          rw [findModel_eq_none_iff, List.find?_eq_none] at hf
          exact hf p hp' hpred
        rw [findModel, List.find?_append, hnone2, Option.none_or]
        simp
      · rfl

theorem getStatus_find_aux (ms : List (String × LoadedModel)) (t : ℚ) (slot : String)
    (m : LoadedModel) (h : (ms.find? (fun p => p.1 == slot)).map Prod.snd = some m) :
    ((ms.map fun p => (p.1, (⟨p.2.loadedAt, p.2.lastUsed, p.2.memoryMb,
        t - p.2.lastUsed⟩ : StatusEntry))).find? (fun p => p.1 == slot)).map Prod.snd
      = some ⟨m.loadedAt, m.lastUsed, m.memoryMb, t - m.lastUsed⟩ := by
  induction ms with
  | nil => simp at h
  | cons q rest ih =>
    rw [List.map_cons, List.find?_cons]
    rw [List.find?_cons] at h
    cases hq : (q.1 == slot) with
    | true =>
      rw [hq] at h
      simp only [Option.map_some'] at h
      rw [Option.some_inj] at h
      subst h
      simp only [hq]
      rfl
    | false =>
      rw [hq] at h
      simp only [hq]
      exact ih h

theorem unloadModel_removes (cfg : Config) (mgr : Manager) (slot : String)
    (hpin : pinned cfg slot = false) :
    findModel (unloadModel cfg mgr slot).models slot = none := by
  rw [unloadModel]
  cases hf : findModel mgr.models slot with
  | none => exact hf
  | some m =>
    rw [hpin]
    simp only [Bool.false_eq_true, if_false]
    rw [findModel, Option.map_eq_none', List.find?_eq_none]
    intro p hp
    have h := (List.mem_filter.mp hp).2
    simpa using h

theorem unloadModel_pinned_id (cfg : Config) (mgr : Manager) (slot : String)
    (hpin : pinned cfg slot = true) : unloadModel cfg mgr slot = mgr := by
  rw [unloadModel]
  cases findModel mgr.models slot with
  | none => rfl
  | some m => rw [hpin]; simp

/-- C9: after a successful `load_model(slot)`, `get_status` at any later time
reports the slot with a non-negative `idle_seconds`; a subsequent
`unload_model(slot)` removes it when its `keep_loaded` is not `"always"`;
and on a pinned slot `unload_model` logs and returns, leaving the manager —
and the loaded slot — untouched. -/
theorem C9_load_unload_status (cfg : Config) (rss : List (String × LoadedModel) → ℚ)
    (maxRam : ℚ) (mgr : Manager) (slot : String) (now t : ℚ) (mgr' : Manager)
    (m : LoadedModel) (hload : loadModel cfg rss maxRam mgr slot now = (mgr', .ok m))
    (ht : now ≤ t) :
    (∃ e, ((getStatus mgr' t).find? (fun p => p.1 == slot)).map Prod.snd = some e ∧
       0 ≤ e.idleSeconds) ∧
    (pinned cfg slot = false →
       findModel (unloadModel cfg mgr' slot).models slot = none) ∧
    (pinned cfg slot = true → unloadModel cfg mgr' slot = mgr' ∧
       findModel (unloadModel cfg mgr' slot).models slot = some m) := by
  obtain ⟨hfind, hlast⟩ := loadModel_ok_findModel cfg rss maxRam mgr slot now mgr' m hload
  refine ⟨?_, ?_, ?_⟩
  · refine ⟨⟨m.loadedAt, m.lastUsed, m.memoryMb, t - m.lastUsed⟩, ?_, ?_⟩
    · rw [getStatus]
      exact getStatus_find_aux mgr'.models t slot m hfind
    · simp only
      rw [hlast]
      linarith
  · intro hpin
    exact unloadModel_removes cfg mgr' slot hpin
  · intro hpin
    rw [unloadModel_pinned_id cfg mgr' slot hpin]
    exact ⟨rfl, hfind⟩

theorem C9_load_unload_status_witness :
    (∃ e, ((getStatus (⟨[("reranker", ⟨"reranker", 5, 5, 90⟩)],
          [("reranker", (5 : ℚ) + 300, 300)]⟩ : Manager) 7).find?
            (fun p => p.1 == "reranker")).map Prod.snd = some e ∧
       0 ≤ e.idleSeconds) ∧
    (pinned [("embedder", ⟨"bge", Keep.always, 0⟩), ("reranker", ⟨"ce", Keep.onDemand, 300⟩)]
        "reranker" = false →
       findModel (unloadModel
         [("embedder", ⟨"bge", Keep.always, 0⟩), ("reranker", ⟨"ce", Keep.onDemand, 300⟩)]
         (⟨[("reranker", ⟨"reranker", 5, 5, 90⟩)], [("reranker", (5 : ℚ) + 300, 300)]⟩ : Manager)
         "reranker").models "reranker" = none) ∧
    (pinned [("embedder", ⟨"bge", Keep.always, 0⟩), ("reranker", ⟨"ce", Keep.onDemand, 300⟩)]
        "reranker" = true →
       unloadModel
         [("embedder", ⟨"bge", Keep.always, 0⟩), ("reranker", ⟨"ce", Keep.onDemand, 300⟩)]
         (⟨[("reranker", ⟨"reranker", 5, 5, 90⟩)], [("reranker", (5 : ℚ) + 300, 300)]⟩ : Manager)
         "reranker"
         = (⟨[("reranker", ⟨"reranker", 5, 5, 90⟩)], [("reranker", (5 : ℚ) + 300, 300)]⟩ : Manager) ∧
       findModel (unloadModel
         [("embedder", ⟨"bge", Keep.always, 0⟩), ("reranker", ⟨"ce", Keep.onDemand, 300⟩)]
         (⟨[("reranker", ⟨"reranker", 5, 5, 90⟩)], [("reranker", (5 : ℚ) + 300, 300)]⟩ : Manager)
         "reranker").models "reranker" = some ⟨"reranker", 5, 5, 90⟩) :=
  C9_load_unload_status
    [("embedder", ⟨"bge", Keep.always, 0⟩), ("reranker", ⟨"ce", Keep.onDemand, 300⟩)]
    (fun _ => (0 : ℚ)) 4000 ⟨[], []⟩ "reranker" 5 7
    ⟨[("reranker", ⟨"reranker", 5, 5, 90⟩)], [("reranker", (5 : ℚ) + 300, 300)]⟩
    ⟨"reranker", 5, 5, 90⟩ rfl (by norm_num)

/-- C7 (evaluation at the failing scenario): slot `reranker` is `on_demand`
with `idle_timeout_seconds = 10`.  Load at t = 0 (arming the one unload task,
due at t = 10), touch via a `load_model` hit at t = 9 (which does **not**
re-arm the task), task fires at t = 10 and finds `idle = 1 < 10`, so it exits
without unloading — and without rescheduling.  The resulting state still
holds the model, has **no** pending unload task (so no task can ever fire
again), yet by t = 19 a full `idle_timeout_seconds` has elapsed since the
last touch: the slot stays loaded forever, contradicting the claimed
idle-timeout semantics. -/
theorem C7_idle_timeout_eval :
    (runEvents [("reranker", ⟨"ce", Keep.onDemand, 10⟩)] (fun _ => (0 : ℚ)) 4000
        emptyManager
        [.load "reranker" 0, .load "reranker" 9, .fire "reranker" 10]
      = ⟨[("reranker", ⟨"reranker", 0, 9, 90⟩)], []⟩) ∧
    (∀ (s : String) (u : ℚ),
      fireTask [("reranker", ⟨"ce", Keep.onDemand, 10⟩)]
        ⟨[("reranker", ⟨"reranker", 0, 9, 90⟩)], []⟩ s u
        = ⟨[("reranker", ⟨"reranker", 0, 9, 90⟩)], []⟩) ∧
    ((10 : ℚ) ≤ 19 - 9) := by
  refine ⟨?_, ?_, by norm_num⟩
  · have h1 : stepEvent [("reranker", ⟨"ce", Keep.onDemand, 10⟩)] (fun _ => (0 : ℚ)) 4000
        emptyManager (.load "reranker" 0)
        = ⟨[("reranker", ⟨"reranker", 0, 0, 90⟩)], [("reranker", (0 : ℚ) + 10, 10)]⟩ := rfl
    have h1' : stepEvent [("reranker", ⟨"ce", Keep.onDemand, 10⟩)] (fun _ => (0 : ℚ)) 4000
        emptyManager (.load "reranker" 0)
        = ⟨[("reranker", ⟨"reranker", 0, 0, 90⟩)], [("reranker", (10 : ℚ), 10)]⟩ := by
      rw [h1, zero_add]
    have h2 : stepEvent [("reranker", ⟨"ce", Keep.onDemand, 10⟩)] (fun _ => (0 : ℚ)) 4000
        ⟨[("reranker", ⟨"reranker", 0, 0, 90⟩)], [("reranker", (10 : ℚ), 10)]⟩
        (.load "reranker" 9)
        = ⟨[("reranker", ⟨"reranker", 0, 9, 90⟩)], [("reranker", (10 : ℚ), 10)]⟩ := rfl
    have hfind : (([("reranker", (10 : ℚ), (10 : ℚ))] : List (String × ℚ × ℚ)).find?
        (fun p => p.1 == "reranker")) = some ("reranker", 10, 10) := rfl
    have h3 : stepEvent [("reranker", ⟨"ce", Keep.onDemand, 10⟩)] (fun _ => (0 : ℚ)) 4000
        ⟨[("reranker", ⟨"reranker", 0, 9, 90⟩)], [("reranker", (10 : ℚ), 10)]⟩
        (.fire "reranker" 10)
        = ⟨[("reranker", ⟨"reranker", 0, 9, 90⟩)], []⟩ := by
      show fireTask [("reranker", ⟨"ce", Keep.onDemand, 10⟩)]
        ⟨[("reranker", ⟨"reranker", 0, 9, 90⟩)], [("reranker", (10 : ℚ), 10)]⟩
        "reranker" 10 = ⟨[("reranker", ⟨"reranker", 0, 9, 90⟩)], []⟩
      rw [fireTask, hfind]
      simp only
      rw [if_pos trivial, delayedUnloadBody]
      have hfm : findModel ([("reranker", (⟨"reranker", 0, 9, 90⟩ : LoadedModel))])
          "reranker" = some ⟨"reranker", 0, 9, 90⟩ := rfl
      simp only [hfm]
      rw [if_neg (by norm_num)]
      rfl
    simp only [runEvents, List.foldl]
    rw [h1', h2, h3]
  · intro s u
    rw [fireTask]
    simp

/-! ## Theorems: dispatcher error envelope (C8) and the embed edge case (C10) -/

/-- C8: the dispatcher's error envelope.  A frame that is not valid JSON is
answered with a `-32700` response (`id: null`); a parsed request whose
`method` is not in the handler table (including an absent method) is answered
with `-32601` echoing the request id; and a handler that raises is answered
with `-32000` carrying `str(e)`, echoing the request id.  In all three cases
`_handle_request` returns a response instead of letting the exception
propagate. -/
theorem C8_error_envelope (handlers : String → Option (Params → Except String RVal)) :
    (∀ msg, handleRequest handlers (.malformed msg)
       = .ok (.error (-32700) ("Parse error: " ++ msg) none)) ∧
    (∀ (id : Option Int) (method : Option String) (params : Params),
       method.bind handlers = none →
       handleRequest handlers (.request id method params)
         = .ok (.error (-32601) ("Method not found: " ++ method.getD "None") id)) ∧
    (∀ (id : Option Int) (method : Option String) (params : Params)
       (h : Params → Except String RVal) (e : String),
       method.bind handlers = some h → h params = .error e →
       handleRequest handlers (.request id method params)
         = .ok (.error (-32000) e id)) := by
  refine ⟨fun msg => rfl, ?_, ?_⟩
  · intro id method params hnone
    simp only [handleRequest, hnone]
  · intro id method params h e hsome herr
    simp only [handleRequest, hsome, herr]

theorem C8_error_envelope_witness :
    (handleRequest (daemonHandlers (fun _ => []) (fun _ _ => .ok (.opaqueResult "r")))
       (.malformed "not json")
       = .ok (.error (-32700) ("Parse error: " ++ "not json") none)) ∧
    (handleRequest (daemonHandlers (fun _ => []) (fun _ _ => .ok (.opaqueResult "r")))
       (.request (some 7) (some "frobnicate") ⟨none⟩)
       = .ok (.error (-32601) ("Method not found: " ++ "frobnicate") (some 7))) ∧
    (handleRequest (daemonHandlers (fun _ => []) (fun _ _ => .ok (.opaqueResult "r")))
       (.request (some 8) (some "embed") ⟨some []⟩)
       = .ok (.error (-32000) "Missing 'texts' parameter" (some 8))) :=
  ⟨(C8_error_envelope (daemonHandlers (fun _ => []) (fun _ _ => .ok (.opaqueResult "r")))).1
     "not json",
   (C8_error_envelope (daemonHandlers (fun _ => []) (fun _ _ => .ok (.opaqueResult "r")))).2.1
     (some 7) (some "frobnicate") ⟨none⟩ rfl,
   (C8_error_envelope (daemonHandlers (fun _ => []) (fun _ _ => .ok (.opaqueResult "r")))).2.2
     (some 8) (some "embed") ⟨some []⟩ (handleEmbed (fun _ => []))
     "Missing 'texts' parameter" rfl rfl⟩

/-- C10: the `embed` method with `texts` absent or equal to the empty list.
`params.get("texts", [])` yields `[]`, Python falsiness makes the handler
raise `ValueError("Missing 'texts' parameter")`, and the dispatcher converts
it to a `-32000` error response with exactly that message — not a success
with zero embeddings. -/
theorem C10_embed_missing_texts (embedFn : List String → List (List ℚ))
    (other : String → Params → Except String RVal) (id : Option Int)
    (texts : Option (List String)) (h : texts = none ∨ texts = some []) :
    handleRequest (daemonHandlers embedFn other) (.request id (some "embed") ⟨texts⟩)
      = .ok (.error (-32000) "Missing 'texts' parameter" id) := by
  have hbind : (some "embed").bind (daemonHandlers embedFn other)
      = some (handleEmbed embedFn) := rfl
  have htexts : (⟨texts⟩ : Params).texts.getD [] = [] := by
    rcases h with rfl | rfl <;> rfl
  have hembed : handleEmbed embedFn ⟨texts⟩ = .error "Missing 'texts' parameter" := by
    rw [handleEmbed, htexts]
    rfl
  simp only [handleRequest, hbind, hembed]

theorem C10_embed_missing_texts_witness :
    (handleRequest (daemonHandlers (fun ts => ts.map (fun _ => emb768))
        (fun _ _ => .ok (.opaqueResult "r")))
       (.request (some 1) (some "embed") ⟨some []⟩)
       = .ok (.error (-32000) "Missing 'texts' parameter" (some 1))) ∧
    (handleRequest (daemonHandlers (fun ts => ts.map (fun _ => emb768))
        (fun _ _ => .ok (.opaqueResult "r")))
       (.request none (some "embed") ⟨none⟩)
       = .ok (.error (-32000) "Missing 'texts' parameter" none)) :=
  ⟨C10_embed_missing_texts (fun ts => ts.map (fun _ => emb768))
     (fun _ _ => .ok (.opaqueResult "r")) (some 1) (some []) (Or.inr rfl),
   C10_embed_missing_texts (fun ts => ts.map (fun _ => emb768))
     (fun _ _ => .ok (.opaqueResult "r")) none none (Or.inl rfl)⟩

end VPS
